import Mathlib

/-!
Verification development for the tof-export data pipeline.

The definitions below are shallow embeddings of the Python sources
`data_types.py`, `data_edit.py` and `data_export.py` (the final revision of
the pipeline; `data.py` is an earlier superseded revision).  Machine strings
are modelled as Lean `String` / `List Char`, Python lists as Lean lists,
Python dicts as insertion-ordered association lists with overwrite-on-insert,
and Python sets as insertion-ordered duplicate-free lists.  Regular
expressions are modelled by the fragment actually exercised by the edit
table: metacharacter-free literal patterns and a literal followed by `.*`
under DOTALL (match to end of text).
-/

/-! ## data_types.py: Operation enum (lines 40-63) -/

/-- `Operation(int, Enum)` from data_types.py: the input-control tokens. -/
inductive Operation where
  | ATTACK
  | JUMP
  | DODGE
  | SNEAK
  | DIRECTIONAL_KEY
  | HOLD_ATTACK
  | AND
  | NEXT
  | HOLD_DODGE
  deriving DecidableEq

/-- The integer value of each enum member (data_types.py lines 41-49). -/
def Operation.value : Operation → Nat
  | .ATTACK => 0
  | .JUMP => 1
  | .DODGE => 2
  | .SNEAK => 3
  | .DIRECTIONAL_KEY => 4
  | .HOLD_ATTACK => 5
  | .AND => 6
  | .NEXT => 7
  | .HOLD_DODGE => 8

/-- `Operation.sort_value` (data_types.py lines 58-63): DIRECTIONAL_KEY is
remapped to 1, every other member keeps its enum value. -/
def Operation.sortValue (op : Operation) : Nat :=
  if op = Operation.DIRECTIONAL_KEY then 1 else op.value

/-- `Operation.serialize` (data_types.py lines 51-52): the member name. -/
def Operation.opName : Operation → String
  | .ATTACK => "ATTACK"
  | .JUMP => "JUMP"
  | .DODGE => "DODGE"
  | .SNEAK => "SNEAK"
  | .DIRECTIONAL_KEY => "DIRECTIONAL_KEY"
  | .HOLD_ATTACK => "HOLD_ATTACK"
  | .AND => "AND"
  | .NEXT => "NEXT"
  | .HOLD_DODGE => "HOLD_DODGE"

/-- `Operation.deserialize` (data_types.py lines 54-56): `cls[value]`,
member lookup by name; a missing name raises `KeyError`. -/
def Operation.fromName (s : String) : Option Operation :=
  if s = "ATTACK" then some Operation.ATTACK
  else if s = "JUMP" then some Operation.JUMP
  else if s = "DODGE" then some Operation.DODGE
  else if s = "SNEAK" then some Operation.SNEAK
  else if s = "DIRECTIONAL_KEY" then some Operation.DIRECTIONAL_KEY
  else if s = "HOLD_ATTACK" then some Operation.HOLD_ATTACK
  else if s = "AND" then some Operation.AND
  else if s = "NEXT" then some Operation.NEXT
  else if s = "HOLD_DODGE" then some Operation.HOLD_DODGE
  else none

/-! ## data_types.py: Element and Category enums (lines 12-37) -/

/-- `Element(str, Enum)` from data_types.py. -/
inductive Element where
  | PHYSICAL
  | FLAME
  | VOLT
  | FROST
  | ALTERED
  deriving DecidableEq

/-- `Element.serialize`: the member name. -/
def Element.elName : Element → String
  | .PHYSICAL => "PHYSICAL"
  | .FLAME => "FLAME"
  | .VOLT => "VOLT"
  | .FROST => "FROST"
  | .ALTERED => "ALTERED"

/-- `Element.deserialize`: member lookup by name. -/
def Element.fromName (s : String) : Option Element :=
  if s = "PHYSICAL" then some Element.PHYSICAL
  else if s = "FLAME" then some Element.FLAME
  else if s = "VOLT" then some Element.VOLT
  else if s = "FROST" then some Element.FROST
  else if s = "ALTERED" then some Element.ALTERED
  else none

/-- `Category(str, Enum)` from data_types.py. -/
inductive Category where
  | DPS
  | SUPPORT
  | TANK
  deriving DecidableEq

/-- `Category.serialize`: the member name. -/
def Category.catName : Category → String
  | .DPS => "DPS"
  | .SUPPORT => "SUPPORT"
  | .TANK => "TANK"

/-- `Category.deserialize`: member lookup by name. -/
def Category.fromName (s : String) : Option Category :=
  if s = "DPS" then some Category.DPS
  else if s = "SUPPORT" then some Category.SUPPORT
  else if s = "TANK" then some Category.TANK
  else none

/-! ## data_types.py: AbilityItem and its order (lines 252-268) -/

/-- `AbilityItem` dataclass (data_types.py lines 252-256). -/
structure AbilityItem where
  name : String
  desc : String
  icon : String
  control : List Operation
  deriving DecidableEq

/-- The zip-then-length comparison loop of `AbilityItem.__lt__`
(data_types.py lines 264-268): walk the two control sequences in lockstep;
the first pair of differing `sort_value`s decides, otherwise the shorter
sequence is smaller. -/
def ctlLt : List Operation → List Operation → Bool
  | x :: xs, y :: ys =>
      if x.sortValue ≠ y.sortValue then decide (x.sortValue < y.sortValue)
      else ctlLt xs ys
  | xs, ys => decide (xs.length < ys.length)

/-- `AbilityItem.__lt__` (data_types.py lines 258-268): an item with empty
control is never less than anything; a non-empty control is less than an
empty one; otherwise the zip-then-length comparison decides. -/
def AbilityItem.lt (a b : AbilityItem) : Bool :=
  if a.control = [] then false
  else if b.control = [] then true
  else ctlLt a.control b.control

/-- The non-strict comparison induced by `__lt__`, as used by Python's
stable `sorted`: `a` may precede `b` unless `b < a`. -/
def AbilityItem.le (a b : AbilityItem) : Bool :=
  !(AbilityItem.lt b a)

/-- Python's stable `sorted(list)` driven by `AbilityItem.__lt__`,
modelled as a stable merge sort over the induced non-strict comparison. -/
def pySorted (xs : List AbilityItem) : List AbilityItem :=
  xs.mergeSort AbilityItem.le

/-! ## data_types.py: Weapon (lines 280-304) -/

/-- `Weapon` dataclass (data_types.py lines 280-300). -/
structure Weapon where
  char : String := ""
  char_banner_image : String := ""
  char_centered_image : String := ""
  name : String := ""
  image : String := ""
  intro : String := ""
  element : Element := Element.ALTERED
  category : Category := Category.DPS
  normals : List AbilityItem := []
  dodges : List AbilityItem := []
  skills : List AbilityItem := []
  discharges : List AbilityItem := []
  passives : List AbilityItem := []
  enhancement : List (Nat × String) := []
  ref_names : List String := []
  deriving DecidableEq

/-- `Weapon.__post_init__` (data_types.py lines 302-304): re-sort the
normals and dodges lists.  Every construction of a `Weapon` value in the
program runs this. -/
def weaponPostInit (w : Weapon) : Weapon :=
  { w with normals := pySorted w.normals, dodges := pySorted w.dodges }

/-- Constructing a `Weapon` through the dataclass `__init__`, which always
ends in `__post_init__`. -/
def mkWeapon (w : Weapon) : Weapon :=
  weaponPostInit w

/-! ## Text model: Python `str.strip` and the regex fragment -/

/-- The whitespace set of Python's `str.strip` (ASCII fragment). -/
def isPySpace (c : Char) : Bool :=
  c = ' ' || c = '\t' || c = '\n' || c = '\r' || c = '\x0b' || c = '\x0c'

/-- Python `str.strip()`: drop leading and trailing whitespace. -/
def pyStrip (t : List Char) : List Char :=
  ((t.dropWhile isPySpace).reverse.dropWhile isPySpace).reverse

/-- The regex fragment used by the hand-authored edit table: a
metacharacter-free literal pattern, or such a literal followed by `.*`
which under `re.DOTALL` greedily matches to the end of the text. -/
inductive Pat where
  | lit (p : List Char)
  | litThenRest (p : List Char)
  deriving DecidableEq

/-- The left-to-right scan of `re.sub(p, "", t)` for a literal pattern:
on a match the matched characters are consumed (the head now, the
remaining `skip` characters silently), making the deletion
non-overlapping.  Structured with an explicit skip counter so the
recursion is structural. -/
def subAllLitGo (p : List Char) (skip : Nat) : List Char → List Char
  | [] => []
  | c :: t =>
      match skip with
      | n + 1 => subAllLitGo p n t
      | 0 =>
          if p ≠ [] ∧ p.isPrefixOf (c :: t) then
            subAllLitGo p (p.length - 1) t
          else
            c :: subAllLitGo p 0 t

/-- `re.sub(p, "", t)` for a literal pattern `p`: one left-to-right scan
deleting every non-overlapping occurrence of `p`.  (For the empty pattern
Python substitutes the empty replacement at every position, leaving the
text unchanged; the scan does the same.) -/
def subAllLit (p : List Char) (t : List Char) : List Char :=
  subAllLitGo p 0 t

/-- `re.sub(p ++ ".*", "", t)` under DOTALL for non-empty literal `p`:
everything from the first occurrence of `p` to the end of the text is
removed (the `.*` consumes the rest, and no further match exists). -/
def subAllStar (p : List Char) : List Char → List Char
  | [] => []
  | c :: t => if p.isPrefixOf (c :: t) then [] else c :: subAllStar p t

/-- `p` occurs as a contiguous substring of `t` (scan for a position where
`p` is a prefix of the remaining text). -/
def hasOcc (p : List Char) : List Char → Bool
  | [] => decide (p = [])
  | c :: t => p.isPrefixOf (c :: t) || hasOcc p t

/-- First occurrence of `p` extended to the end of the text. -/
def starSearch (p : List Char) : List Char → Option (List Char)
  | [] => none
  | c :: t => if p.isPrefixOf (c :: t) then some (c :: t) else starSearch p t

/-- `re.search(p, t, re.DOTALL).group(0)` for the modelled fragment: the
text of the first match, or `None` when the pattern does not occur. -/
def patSearch : Pat → List Char → Option (List Char)
  | .lit p, t =>
      if p ≠ [] ∧ hasOcc p t then some p else none
  | .litThenRest p, t => starSearch p t

/-- `re.sub(pat, "", t, flags=re.DOTALL)` for the modelled fragment. -/
def patSubAll : Pat → List Char → List Char
  | .lit p, t => subAllLit p t
  | .litThenRest p, t => subAllStar p t

/-! ## data_edit.py: text operations (lines 135-163) -/

/-- `Remove.__call__` (data_edit.py lines 141-147) for a literal pattern:
substitute every match with the empty string, then fail when the text is
unchanged.  The error carries Python's message prefix. -/
def removeCall (p : List Char) (t : List Char) : Except String (List Char) :=
  let newText := subAllLit p t
  if t = newText then Except.error "Failed to remove" else Except.ok newText

/-- The spec's wording of `Remove(pattern)`, modelled from the spec for
comparison: delete only the first match of the literal pattern. -/
def removeFirstOcc (p : List Char) : List Char → List Char
  | [] => []
  | c :: t =>
      if p ≠ [] ∧ p.isPrefixOf (c :: t) then (c :: t).drop p.length
      else c :: removeFirstOcc p t


/-! ## data_edit.py: modification operation values (lines 135-265)

The dataclasses `Strip`, `Previous`, `Remove`, `InsertNewlines`, `Move` and
`Modify` are modelled as one closed sum.  `Move.post_format` is declared
`TextModi | list[TextModi]`; its values are drawn from the text-operation
classes, modelled by the separate non-recursive sum `TextMod`. -/

/-- A value of the declared `TextModi` family: `Strip`, `Remove`,
`InsertNewlines` (data_edit.py lines 135-163). -/
inductive TextMod where
  | strip
  | removeOp (pattern : String)
  | insertNewlines (regex : String)
  deriving DecidableEq

/-- `Move.post_format`: a single `TextModi` or a list of them. -/
inductive PostFmt where
  | one (m : TextMod)
  | many (ms : List TextMod)
  deriving DecidableEq

/-- The modification-operation dataclasses of data_edit.py as one closed
sum.  Field order and defaults follow the source; `moveOp.toCat` is the
`to` field. -/
inductive ModVal where
  | strip
  | previous
  | removeOp (pattern : String)
  | insertNewlines (regex : String)
  | moveOp (toCat : String) (regex : Option String) (post_format : PostFmt)
      (name : Option String) (icon : Option String) (control : List Operation)
  | modifyOp (name : Option String) (desc : Option String)
      (icon : Option String) (control : Option (List Operation))
  deriving DecidableEq

/-- A value of the edit table: `ModificationFunc | list[ModificationFunc]`.
`apply_mod` tests `isinstance(modi, Previous)` on the value itself, so a
bare operation and a one-element list behave differently; the sum keeps
them apart. -/
inductive ModEntry where
  | single (m : ModVal)
  | listOf (ms : List ModVal)
  deriving DecidableEq

/-- Membership of a class in the `TextModi` family (data_edit.py
lines 108-116): `Strip`, `Remove`, `InsertNewlines`. -/
def ModVal.isTextModi : ModVal → Bool
  | .strip => true
  | .removeOp _ => true
  | .insertNewlines _ => true
  | _ => false

/-- Membership in the `AbilityModi` family (lines 119-129). -/
def ModVal.isAbilityModi : ModVal → Bool
  | .moveOp _ _ _ _ _ _ => true
  | .modifyOp _ _ _ _ => true
  | _ => false

/-- Interpretation of a stored pattern string inside the modelled regex
fragment: a trailing `.*` denotes match-to-end under DOTALL, anything else
is a metacharacter-free literal. -/
def patOf (s : String) : Pat :=
  if (s.toList.reverse.take 2) = ['*', '.'] then
    Pat.litThenRest (s.toList.take (s.toList.length - 2))
  else Pat.lit s.toList

/-- Generalisation of `Remove.__call__` (data_edit.py lines 141-147) to the
modelled regex fragment: substitute every match of the pattern with the
empty string, then fail when the text is unchanged. -/
def removeCallP (p : Pat) (t : List Char) : Except String (List Char) :=
  let newText := patSubAll p t
  if t = newText then Except.error "Failed to remove" else Except.ok newText

/-- `TextModi.__call__` dispatch for a `TextMod` value: `Strip` strips,
`Remove` substitutes, `InsertNewlines` declares no `__call__` (calling the
abstract method raises). -/
def textModApply : TextMod → List Char → Except String (List Char)
  | .strip, t => Except.ok (pyStrip t)
  | .removeOp pattern, t => removeCallP (patOf pattern) t
  | .insertNewlines _, _ => Except.error "InsertNewlines has no implementation"

/-- `TextModi.__call__` dispatch at the `ModVal` level; calling a
non-text operation on text fails. -/
def textApply : ModVal → List Char → Except String (List Char)
  | .strip, t => Except.ok (pyStrip t)
  | .removeOp pattern, t => removeCallP (patOf pattern) t
  | .insertNewlines _, _ => Except.error "InsertNewlines has no implementation"
  | _, _ => Except.error "not a text operation"

/-! ## data_edit.py: weapon-level application of operations

Python mutates `Weapon`/`AbilityItem` objects in place and relocates
abilities between category lists by object identity.  The model passes the
weapon functionally and addresses an ability by its current category list
and index in it; this coincides with object identity as long as the
addressed ability actually sits at that position, which holds at
selector-resolution time in every run the theorems below examine. -/

/-- `getattr(weapon, category)` on the five ability-list attributes. -/
def Weapon.getCat (w : Weapon) : String → Option (List AbilityItem)
  | "normals" => some w.normals
  | "dodges" => some w.dodges
  | "skills" => some w.skills
  | "discharges" => some w.discharges
  | "passives" => some w.passives
  | _ => none

/-- `setattr`-style functional update of one ability-list attribute. -/
def Weapon.setCat (w : Weapon) (cat : String) (l : List AbilityItem) :
    Option Weapon :=
  match cat with
  | "normals" => some { w with normals := l }
  | "dodges" => some { w with dodges := l }
  | "skills" => some { w with skills := l }
  | "discharges" => some { w with discharges := l }
  | "passives" => some { w with passives := l }
  | _ => none

/-- `list.remove(x)`: delete the first element equal to `x`, or fail with
`ValueError` when no element is equal. -/
def listRemoveFirst (xs : List AbilityItem) (a : AbilityItem) :
    Option (List AbilityItem) :=
  match xs with
  | [] => none
  | x :: rest =>
      if x = a then some rest
      else (listRemoveFirst rest a).map (fun r => x :: r)

/-- Python's falsy `or` on an optional string field: `self.name or
ability.name` falls back when the field is `None` or the empty string. -/
def pyOr (o : Option String) (dflt : String) : String :=
  match o with
  | some s => if s = "" then dflt else s
  | none => dflt

/-- Update the ability at index `idx` of category `cat` in place. -/
def updateAbilityAt (w : Weapon) (cat : String) (idx : Nat)
    (f : AbilityItem → AbilityItem) : Except String Weapon :=
  match w.getCat cat with
  | none => Except.error "AttributeError"
  | some l =>
      match l.get? idx with
      | none => Except.error "ability index out of range"
      | some ab =>
          match w.setCat cat (l.set idx (f ab)) with
          | some w2 => Except.ok w2
          | none => Except.error "AttributeError"

/-- The `pformats` normalisation inside `Move.__call__` (data_edit.py
lines 212-216): a bare `post_format` becomes a one-element list. -/
def postFmtList : PostFmt → List TextMod
  | .one m => [m]
  | .many ms => ms

/-- `Move.__call__` (data_edit.py lines 191-231).  The ability operated on
lives at `(abCat, abIdx)`; `fromCat` is the `from_category` string the
caller passed (the two differ exactly when the caller passed a mismatched
category, as `apply_mod` does for the SKILLS/DISCHARGES wildcards).
Returns the new weapon together with the ability's new address. -/
def moveCall (toCat : String) (regex : Option String) (post_format : PostFmt)
    (newName : Option String) (newIcon : Option String)
    (w : Weapon) (abCat : String) (abIdx : Nat) (fromCat : String) :
    Except String (Weapon × String × Nat) :=
  match (w.getCat abCat).bind (fun l => l.get? abIdx) with
  | none => Except.error "ability index out of range"
  | some ability =>
      match regex with
      | none =>
          -- just move the ability: remove it from `from_category` by value,
          -- then append the object to the target list
          match w.getCat fromCat with
          | none => Except.error "AttributeError"
          | some abList =>
              match listRemoveFirst abList ability with
              | none => Except.error "ValueError: not in list"
              | some removed =>
                  match w.setCat fromCat removed with
                  | none => Except.error "AttributeError"
                  | some w1 =>
                      match w1.getCat toCat with
                      | none => Except.error "AttributeError"
                      | some toList =>
                          match w1.setCat toCat (toList ++ [ability]) with
                          | none => Except.error "AttributeError"
                          | some w2 =>
                              Except.ok (w2, toCat, toList.length)
      | some rx =>
          -- move part of the ability description
          let pat := patOf rx
          match patSearch pat ability.desc.toList with
          | none => Except.error "Regex did not match anything"
          | some captured =>
              match (postFmtList post_format).foldlM
                  (fun t m => textModApply m t) captured with
              | Except.error e => Except.error e
              | Except.ok formatted =>
                  let newAb : AbilityItem :=
                    { name := pyOr newName ability.name
                      desc := String.mk formatted
                      icon := pyOr newIcon ability.icon
                      control := [] }
                  match w.getCat toCat with
                  | none => Except.error "AttributeError"
                  | some toList =>
                      match w.setCat toCat (toList ++ [newAb]) with
                      | none => Except.error "AttributeError"
                      | some w1 =>
                          -- update the original description in place
                          (updateAbilityAt w1 abCat abIdx (fun ab =>
                            { ab with desc :=
                                String.mk (patSubAll pat ab.desc.toList) })).map
                            (fun w2 => (w2, abCat, abIdx))

/-- `Modify.__call__` (data_edit.py lines 243-253): overwrite exactly the
fields that were specified. -/
def modifyCall (name desc icon : Option String)
    (control : Option (List Operation)) (w : Weapon) (abCat : String)
    (abIdx : Nat) : Except String Weapon :=
  updateAbilityAt w abCat abIdx (fun ab =>
    let ab1 := match name with | some n => { ab with name := n } | none => ab
    let ab2 := match desc with | some d => { ab1 with desc := d } | none => ab1
    let ab3 := match icon with | some i => { ab2 with icon := i } | none => ab2
    match control with | some c => { ab3 with control := c } | none => ab3)

/-- Application of one operation to one ability, as dispatched inside
`_apply_mod_single` (data_edit.py lines 332-338).  Threads the ability's
address so a whole-ability `Move` earlier in an operation list redirects
later operations to the object's new location. -/
def applyOne (m : ModVal) (w : Weapon) (abCat : String) (abIdx : Nat)
    (fromCat : String) : Except String (Weapon × String × Nat) :=
  if m.isTextModi then
    match (w.getCat abCat).bind (fun l => l.get? abIdx) with
    | none => Except.error "ability index out of range"
    | some ability =>
        match textApply m ability.desc.toList with
        | Except.error e => Except.error e
        | Except.ok t =>
            (updateAbilityAt w abCat abIdx (fun ab =>
              { ab with desc := String.mk t })).map (fun w2 => (w2, abCat, abIdx))
  else
    match m with
    | .moveOp toCat regex post_format name icon _ =>
        moveCall toCat regex post_format name icon w abCat abIdx fromCat
    | .modifyOp name desc icon control =>
        (modifyCall name desc icon control w abCat abIdx).map
          (fun w2 => (w2, abCat, abIdx))
    | _ => Except.error "Invalid item"

/-- `_apply_mod_single` (data_edit.py lines 323-338): normalise the entry
to a list and apply each operation in order to the same ability. -/
def applyModSingle (e : ModEntry) (w : Weapon) (abCat : String)
    (abIdx : Nat) (fromCat : String) : Except String Weapon :=
  let ms := match e with | .single m => [m] | .listOf ms => ms
  (ms.foldlM (fun (st : Weapon × String × Nat) m =>
      applyOne m st.1 st.2.1 st.2.2 fromCat) (w, abCat, abIdx)).map
    Prod.fst

/-- `_apply_mod_multi` for a single category string (data_edit.py
lines 347-349): apply the entry to each ability of the iterated list.
`iterCat` names the list actually iterated (`abilities` at the call site)
and `fromCat` the category string passed alongside it; iteration is over
the indices present at loop entry. -/
def applyModMulti (e : ModEntry) (w : Weapon) (iterCat : String)
    (fromCat : String) : Except String Weapon :=
  match w.getCat iterCat with
  | none => Except.error "AttributeError"
  | some l =>
      (List.range l.length).foldlM
        (fun wst i => applyModSingle e wst iterCat i fromCat) w

/-! ## Generic insertion-ordered dict model -/

/-- Python dict assignment `d[k] = v`: overwrite in place if the key
exists (keeping its original position), else append. -/
def upsertA {α : Type} (d : List (String × α)) (k : String) (v : α) :
    List (String × α) :=
  match d with
  | [] => [(k, v)]
  | (k0, v0) :: rest =>
      if k0 = k then (k0, v) :: rest else (k0, v0) :: upsertA rest k v

/-- Python dict lookup `d.get(k)`. -/
def lookupA {α : Type} (d : List (String × α)) (k : String) : Option α :=
  match d with
  | [] => none
  | (k0, v0) :: rest => if k0 = k then some v0 else lookupA rest k

/-! ## data_edit.py: apply_mod (lines 355-401) -/

/-- One weapon's entry of `weapon_ability_d` (data_edit.py lines 359-368):
ability name to (ability, category), built over normals, dodges, skills
and discharges in that order with overwrite on duplicate names.  The
ability object is represented by its (category, index) address in the
weapon as of index-construction time. -/
def weaponAbilityIndex (w : Weapon) : List (String × (String × Nat)) :=
  let step := fun (d : List (String × (String × Nat))) (cat : String)
      (l : List AbilityItem) =>
    l.enum.foldl (fun d p => upsertA d p.2.name (cat, p.1)) d
  step (step (step (step [] "normals" w.normals) "dodges" w.dodges)
    "skills" w.skills) "discharges" w.discharges

/-- Index of the first weapon with the given `char` key
(`weapon_name_d`, data_edit.py line 356; `char` is unique across the
collection). -/
def findWeaponIdx (ws : List Weapon) (name : String) : Option Nat :=
  ws.findIdx? (fun w => w.char = name)

/-- One selector step of `apply_mod`'s inner loop (data_edit.py
lines 374-399): substitute PREVIOUS, dispatch on the selector, and record
the operation just applied.  The SKILLS and DISCHARGES wildcard arms
iterate `weapon.dodges`, exactly as the source does on lines 389 and 391. -/
def applyModStep (abilityD : List (String × List (String × (String × Nat))))
    (wpnName : String) (wIdx : Nat)
    (st : List Weapon × Option ModEntry) (sel : String × ModEntry) :
    Except String (List Weapon × Option ModEntry) :=
  let abName := sel.1
  let rawModi := sel.2
  match
    match rawModi with
    | ModEntry.single ModVal.previous =>
        match st.2 with
        | none => Except.error "Cannot use PREVIOUS with no previous modification"
        | some prev => Except.ok prev
    | e => Except.ok e
  with
  | Except.error e => Except.error e
  | Except.ok modi =>
      match st.1.get? wIdx with
      | none => Except.error "KeyError"
      | some w =>
          let applied : Except String Weapon :=
            match abName with
            | "NORMALS" => applyModMulti modi w "normals" "normals"
            | "DODGES" => applyModMulti modi w "dodges" "dodges"
            | "SKILLS" => applyModMulti modi w "dodges" "skills"
            | "DISCHARGES" => applyModMulti modi w "dodges" "discharges"
            | "*" =>
                match lookupA abilityD w.char with
                | none => Except.error "KeyError"
                | some idx =>
                    if idx = [] then Except.error "ValueError: nothing to unpack"
                    else
                      idx.foldlM (fun wst p =>
                        applyModSingle modi wst p.2.1 p.2.2 p.2.1) w
            | _ =>
                match (lookupA abilityD wpnName).bind
                    (fun idx => lookupA idx abName) with
                | none => Except.error "KeyError"
                | some p => applyModSingle modi w p.1 p.2 p.1
          match applied with
          | Except.error e => Except.error e
          | Except.ok w2 => Except.ok (st.1.set wIdx w2, some modi)

/-- `apply_mod` (data_edit.py lines 355-401): build the name and ability
indices over the incoming weapons, then run every character's selector
list in table order, with PREVIOUS reuse per character. -/
def applyMod (weapons : List Weapon)
    (mods : List (String × List (String × ModEntry))) :
    Except String (List Weapon) :=
  let abilityD := weapons.foldl
    (fun d w => upsertA d w.char (weaponAbilityIndex w)) []
  mods.foldlM
    (fun ws mentry =>
      match findWeaponIdx ws mentry.1 with
      | none => Except.error "KeyError"
      | some wIdx =>
          (mentry.2.foldlM (applyModStep abilityD mentry.1 wIdx)
            (ws, (none : Option ModEntry))).map Prod.fst)
    weapons

/-! ## data_export.py: get_advancement_entries (lines 203-248)

The raw `WeaponUpgradeStarData` table is modelled as the insertion-ordered
association of row key to the row's final description text (the
`RemouldDetail` string after `get_effect_figures` substitution, which the
advancement-completeness claims do not concern). -/

/-- `Advancements` dataclass (data_types.py lines 245-248); `adv` is the
insertion-ordered tier-to-description dict. -/
structure Advancements where
  ref_name : String
  adv : List (Nat × String)
  deriving DecidableEq

/-- Python `key.rstrip("0123456789")`. -/
def rstripDigits (s : String) : String :=
  String.mk (s.toList.reverse.dropWhile Char.isDigit).reverse

/-- Python `key.split("_")[0]`: the characters before the first
underscore (the whole key when none occurs). -/
def splitHead (s : String) : String :=
  String.mk (s.toList.takeWhile (fun c => c ≠ '_'))

/-- The inner tier loop `for i in range(1, 16)` of
`get_advancement_entries` (data_export.py lines 222-244): each iteration
first aborts the whole run when tier 15 is absent, then breaks out (the
`incomplete` flag) at the first missing tier, otherwise collects the
tier's description. -/
def collectTiers (rows : List (String × String)) (keyBase : String) :
    List Nat → List (Nat × String) → Except String (List (Nat × String) × Bool)
  | [], acc => Except.ok (acc, false)
  | i :: rest, acc =>
      if lookupA rows (keyBase ++ toString 15) = none then
        Except.error "Not up to 15"
      else
        match lookupA rows (keyBase ++ toString i) with
        | none => Except.ok (acc, true)
        | some desc => collectTiers rows keyBase rest (acc ++ [(i, desc)])

/-- `get_advancement_entries` (data_export.py lines 203-248).  Note the
source appends `Advancements(ref, adv)` and adds `ref` to `done` even when
the tier loop broke out early after adding `ref` to `skip`. -/
def getAdvancementEntries (rows : List (String × String)) :
    Except String (List Advancements) :=
  (rows.foldlM
    (fun (st : List Advancements × List String × List String)
        (kv : String × String) =>
      let key : String := kv.1
      if key.startsWith ("breakfate") then Except.ok st
      else
        let ref := splitHead key
        if ref ∈ st.2.1 ∨ ref ∈ st.2.2 then Except.ok st
        else
          let keyBase := rstripDigits key
          match collectTiers rows keyBase (List.range' 1 15) [] with
          | Except.error e => Except.error e
          | Except.ok (adv, incomplete) =>
              Except.ok
                (st.1 ++ [{ ref_name := ref, adv := adv }],
                 st.2.1 ++ [ref],
                 if incomplete then st.2.2 ++ [ref] else st.2.2))
    ([], [], [])).map (fun st => st.1)

/-! ## data_export.py: name/intro entries and the linker fallback
(lines 398-427) -/

/-- `NameIntroEntry` dataclass (data_types.py lines 214-227). -/
structure NameIntroEntry where
  weapon_name : String
  weapon_intro : String
  weapon_image : String
  element : Element
  category : Category
  name_image_path : String
  extra_ref_name : String
  deriving DecidableEq

/-- `CharRefEntry` dataclass (data_types.py lines 230-242); `ref_names` is
the candidate reference-name set in its iteration order. -/
structure CharRefEntry where
  char_name : String
  char_vertical_banner_image : String
  char_centered_image : String
  ref_names : List String
  name_image_path : String
  deriving DecidableEq

/-- `name_intro_d` (data_export.py line 401): dict keyed by
`name_image_path` over the extracted entries. -/
def nameIntroDict (entries : List NameIntroEntry) :
    List (String × NameIntroEntry) :=
  entries.foldl (fun d e => upsertA d e.name_image_path e) []

/-- The fallback scan of `get_weapons` (data_export.py lines 410-416):
`name_intro` is overwritten by every matching entry of
`name_intro_d.values()`, with no break. -/
def fallbackScan (d : List (String × NameIntroEntry))
    (refNames : List String) : Option NameIntroEntry :=
  d.foldl
    (fun acc p =>
      if p.2.extra_ref_name ≠ "" ∧ p.2.extra_ref_name ∈ refNames then some p.2
      else acc)
    none

/-- Name/intro resolution for one character (data_export.py
lines 406-416): exact `name_image_path` match first, then the fallback
scan. -/
def resolveNameIntro (d : List (String × NameIntroEntry))
    (cr : CharRefEntry) : Option NameIntroEntry :=
  match lookupA d cr.name_image_path with
  | some e => some e
  | none => fallbackScan d cr.ref_names

/-! ## data_export.py: the AND-validation loop of get_ability_entries
(lines 326-342) -/

/-- Outcome of the invalid-operation-combination check on one branch. -/
inductive AndCheck where
  | ok
  | skip
  | indexError
  deriving DecidableEq

/-- Python `control[op_idx - 1]`: for `op_idx = 0` this is `control[-1]`,
the last element (the list is non-empty whenever this runs). -/
def pyPrev (ctl : List Operation) (i : Nat) : Operation :=
  if i = 0 then ctl.getLastD Operation.ATTACK
  else ctl.getD (i - 1) Operation.ATTACK

/-- The `for op_idx, op in enumerate(control)` loop body (data_export.py
lines 330-339): at each AND the two neighbours are compared;
`control[op_idx + 1]` is read without a bounds check and raises
`IndexError` when the AND is the final token. -/
def andScan (ctl : List Operation) : List (Nat × Operation) → AndCheck
  | [] => .ok
  | (i, op) :: rest =>
      if op = Operation.AND then
        if i + 1 ≥ ctl.length then .indexError
        else if pyPrev ctl i = ctl.getD (i + 1) Operation.ATTACK then .skip
        else andScan ctl rest
      else andScan ctl rest

/-- The complete validation guard (data_export.py lines 327-342): the loop
only runs on a non-empty control sequence containing AND. -/
def checkControl (ctl : List Operation) : AndCheck :=
  if ctl ≠ [] ∧ Operation.AND ∈ ctl then andScan ctl ctl.enum else .ok

/-! ## data_types.py: the type-directed codec (`Exportable`, lines 66-211)

The codec walks declared field types at run time.  The model reifies the
declared types that occur in this repository's schemas as `Ty`, and the
Python runtime values the codec touches as the `PyVal` family.  Enums are
represented by kind and member index, records (`Exportable` dataclasses)
by their field values in declaration order, dicts as insertion-ordered
pair lists, and sets as insertion-ordered duplicate-free lists. -/

/-- The three enum classes with `serialize`/`deserialize` methods. -/
inductive EnumKind where
  | element
  | category
  | operation
  deriving DecidableEq

/-- The generic-codec `Exportable` dataclasses of data_types.py. -/
inductive RecName where
  | abilityItemR
  | abilitiesR
  | weaponR
  deriving DecidableEq

/-- Declared field types reachable from the repository's schemas:
primitives, enums, `list`/`set`/`tuple`/`dict` aliases, `Literal` over
strings, unions, `Exportable` dataclasses, and the `ModificationFunc` /
`TextModi` bases (which share one inherited `deserialize`). -/
inductive Ty where
  | str
  | int
  | noneT
  | enum (k : EnumKind)
  | listT (a : Ty)
  | setT (a : Ty)
  | tupleT (a : Ty)
  | dictT (kt : Ty) (vt : Ty)
  | litStrs (ss : List String)
  | union (ts : List Ty)
  | recT (r : RecName)
  | mfunc

mutual
/-- Python runtime values in codec positions. -/
inductive PyVal where
  | vstr (s : String)
  | vint (n : Int)
  | vnone
  | venum (k : EnumKind) (i : Nat)
  | vlist (xs : PyList)
  | vset (xs : PyList)
  | vtuple (xs : PyList)
  | vdict (es : PyPairs)
  | vrec (r : RecName) (fs : PyList)
  | vmod (m : ModVal)
  deriving DecidableEq
/-- A Python list of codec values. -/
inductive PyList where
  | nil
  | cons (x : PyVal) (xs : PyList)
  deriving DecidableEq
/-- A Python dict of codec values, in insertion order. -/
inductive PyPairs where
  | nil
  | cons (k : PyVal) (v : PyVal) (ps : PyPairs)
  deriving DecidableEq
end

/-- Enum member names in declaration order. -/
def enumMembers (k : EnumKind) : List String :=
  match k with
  | .element => ["PHYSICAL", "FLAME", "VOLT", "FROST", "ALTERED"]
  | .category => ["DPS", "SUPPORT", "TANK"]
  | .operation =>
      ["ATTACK", "JUMP", "DODGE", "SNEAK", "DIRECTIONAL_KEY", "HOLD_ATTACK",
       "AND", "NEXT", "HOLD_DODGE"]

/-- `member.name`, used by the enums' `serialize`. -/
def enumMemberName (k : EnumKind) (i : Nat) : String :=
  (enumMembers k).getD i ""

/-- Scan a member-name list for a name, returning its index. -/
def enumIdxFrom (s : String) : List String → Nat → Option Nat
  | [], _ => none
  | n :: rest, i => if n = s then some i else enumIdxFrom s rest (i + 1)

/-- `cls[name]`, used by the enums' `deserialize`; `none` is `KeyError`. -/
def enumFromName (k : EnumKind) (s : String) : Option Nat :=
  enumIdxFrom s (enumMembers k) 0

/-- The `Operation` member at a given index (total, junk-padded). -/
def opFromIdx (i : Nat) : Operation :=
  match i with
  | 0 => Operation.ATTACK
  | 1 => Operation.JUMP
  | 2 => Operation.DODGE
  | 3 => Operation.SNEAK
  | 4 => Operation.DIRECTIONAL_KEY
  | 5 => Operation.HOLD_ATTACK
  | 6 => Operation.AND
  | 7 => Operation.NEXT
  | _ => Operation.HOLD_DODGE

/-- Index of an `Operation` member. -/
def opIdx (op : Operation) : Nat :=
  op.value

/-! ### PyVal family helpers -/

/-- Convert an embedded list to a Lean list. -/
def PyList.toList : PyList → List PyVal
  | .nil => []
  | .cons x xs => x :: xs.toList

/-- Convert a Lean list to an embedded list. -/
def PyList.ofList : List PyVal → PyList
  | [] => .nil
  | x :: xs => .cons x (PyList.ofList xs)

/-- Element of an embedded list at an index. -/
def PyList.nth : PyList → Nat → Option PyVal
  | .nil, _ => none
  | .cons x _, 0 => some x
  | .cons _ xs, n + 1 => xs.nth n

/-- Pointwise update of an embedded list at an index. -/
def PyList.setNth : PyList → Nat → PyVal → PyList
  | .nil, _, _ => .nil
  | .cons _ xs, 0, y => .cons y xs
  | .cons x xs, n + 1, y => .cons x (xs.setNth n y)

/-- Membership in an embedded list (Python `in`, by equality). -/
def PyList.memb (x : PyVal) : PyList → Bool
  | .nil => false
  | .cons y ys => x = y || PyList.memb x ys

/-- No element occurs twice (the invariant of a Python set's backing). -/
def PyList.nodup : PyList → Bool
  | .nil => true
  | .cons x xs => !(PyList.memb x xs) && xs.nodup

/-- `set(iterable)`: keep the first occurrence of each element. -/
def PyList.dedupGo (seen : List PyVal) : PyList → PyList
  | .nil => .nil
  | .cons x xs =>
      if x ∈ seen then PyList.dedupGo seen xs
      else .cons x (PyList.dedupGo (x :: seen) xs)

/-- Python dict lookup over embedded pairs. -/
def PyPairs.lookup : PyPairs → PyVal → Option PyVal
  | .nil, _ => none
  | .cons k v ps, key => if k = key then some v else ps.lookup key

/-- Python dict assignment `d[k] = v` over embedded pairs: overwrite in
place when the key exists, else append. -/
def PyPairs.upsert : PyPairs → PyVal → PyVal → PyPairs
  | .nil, k, v => .cons k v .nil
  | .cons k0 v0 ps, k, v =>
      if k0 = k then .cons k0 v ps else .cons k0 v0 (ps.upsert k v)

/-- The keys of an embedded dict. -/
def PyPairs.keys : PyPairs → List PyVal
  | .nil => []
  | .cons k _ ps => k :: ps.keys

/-- Number of entries. -/
def PyPairs.len : PyPairs → Nat
  | .nil => 0
  | .cons _ _ ps => ps.len + 1

/-- Concatenation of two embedded dicts (used only to state lemmas about
fresh-key insertion). -/
def PyPairs.append : PyPairs → PyPairs → PyPairs
  | .nil, qs => qs
  | .cons k v ps, qs => .cons k v (ps.append qs)

/-- No key occurs twice (the invariant of a Python dict). -/
def PyPairs.nodupKeys : PyPairs → Bool
  | .nil => true
  | .cons k _ ps => !(decide (k ∈ ps.keys)) && ps.nodupKeys

/-- A looked-up value is structurally smaller than the pair list (needed
by the termination measure of the deserializer below). -/
def PyPairs.sizeOf_lookup {k v : PyVal} :
    {ps : PyPairs} → ps.lookup k = some v → sizeOf v < sizeOf ps
  | .nil, h => by simp [PyPairs.lookup] at h
  | .cons k0 v0 rest, h => by
      by_cases hk : k0 = k
      · simp [PyPairs.lookup, hk] at h
        subst h
        simp
        omega
      · simp [PyPairs.lookup, hk] at h
        have := @PyPairs.sizeOf_lookup _ _ rest h
        simp
        omega

/-! ### The declared schemas -/

/-- One dataclass field: name, declared type, dataclass default. -/
structure FieldSpec where
  fname : String
  ftype : Ty
  fdefault : Option PyVal

/-- Field tables of the generic-codec dataclasses (data_types.py
lines 252-300), in declaration order with their defaults. -/
def recFields : RecName → List FieldSpec
  | .abilityItemR =>
      [⟨"name", Ty.str, none⟩,
       ⟨"desc", Ty.str, none⟩,
       ⟨"icon", Ty.str, none⟩,
       ⟨"control", Ty.listT (Ty.enum .operation), some (PyVal.vlist .nil)⟩]
  | .abilitiesR =>
      [⟨"ref_name", Ty.str, none⟩,
       ⟨"attack", Ty.listT (Ty.recT .abilityItemR), some (PyVal.vlist .nil)⟩,
       ⟨"dodge", Ty.listT (Ty.recT .abilityItemR), some (PyVal.vlist .nil)⟩,
       ⟨"skill", Ty.listT (Ty.recT .abilityItemR), some (PyVal.vlist .nil)⟩,
       ⟨"discharge", Ty.listT (Ty.recT .abilityItemR), some (PyVal.vlist .nil)⟩]
  | .weaponR =>
      [⟨"char", Ty.str, some (PyVal.vstr "")⟩,
       ⟨"char_banner_image", Ty.str, some (PyVal.vstr "")⟩,
       ⟨"char_centered_image", Ty.str, some (PyVal.vstr "")⟩,
       ⟨"name", Ty.str, some (PyVal.vstr "")⟩,
       ⟨"image", Ty.str, some (PyVal.vstr "")⟩,
       ⟨"intro", Ty.str, some (PyVal.vstr "")⟩,
       ⟨"element", Ty.enum .element, some (PyVal.venum .element 4)⟩,
       ⟨"category", Ty.enum .category, some (PyVal.venum .category 0)⟩,
       ⟨"normals", Ty.listT (Ty.recT .abilityItemR), some (PyVal.vlist .nil)⟩,
       ⟨"dodges", Ty.listT (Ty.recT .abilityItemR), some (PyVal.vlist .nil)⟩,
       ⟨"skills", Ty.listT (Ty.recT .abilityItemR), some (PyVal.vlist .nil)⟩,
       ⟨"discharges", Ty.listT (Ty.recT .abilityItemR), some (PyVal.vlist .nil)⟩,
       ⟨"passives", Ty.listT (Ty.recT .abilityItemR), some (PyVal.vlist .nil)⟩,
       ⟨"enhancement", Ty.dictT Ty.int Ty.str, some (PyVal.vdict .nil)⟩,
       ⟨"ref_names", Ty.setT Ty.str, some (PyVal.vset .nil)⟩]

/-- The control tokens of an embedded `AbilityItem` record (field index 3);
junk-defaulted outside well-formed values. -/
def controlOfV (v : PyVal) : List Operation :=
  match v with
  | .vrec .abilityItemR fs =>
      match fs.nth 3 with
      | some (.vlist xs) =>
          xs.toList.map (fun x =>
            match x with
            | .venum .operation i => opFromIdx i
            | _ => Operation.ATTACK)
      | _ => []
  | _ => []

/-- `AbilityItem.__lt__` read off an embedded record value. -/
def abLtV (a b : PyVal) : Bool :=
  if controlOfV a = [] then false
  else if controlOfV b = [] then true
  else ctlLt (controlOfV a) (controlOfV b)

/-- Induced non-strict comparison on embedded records. -/
def abLeV (a b : PyVal) : Bool :=
  !(abLtV b a)

/-- `sorted(...)` over an embedded ability list. -/
def pySortedV (v : PyVal) : PyVal :=
  match v with
  | .vlist xs => .vlist (PyList.ofList (xs.toList.mergeSort abLeV))
  | other => other

/-- `__post_init__` on an embedded record: `Weapon` re-sorts its `normals`
(field 8) and `dodges` (field 9); other dataclasses declare none. -/
def recPostInit (r : RecName) (fs : PyList) : PyList :=
  match r with
  | .weaponR =>
      let fs1 :=
        match fs.nth 8 with
        | some v => fs.setNth 8 (pySortedV v)
        | none => fs
      match fs1.nth 9 with
      | some v => fs1.setNth 9 (pySortedV v)
      | none => fs1
  | _ => fs

/-- `cls(**d)` (dataclass construction as run by `deserialize`): each field
takes the provided value, else its declared default, else `__init__`
raises; construction ends with `__post_init__`. -/
def buildRec (r : RecName) (provided : List (String × PyVal)) :
    Except String PyVal :=
  match
    (recFields r).foldlM
      (fun (acc : List PyVal) f =>
        match lookupA provided f.fname with
        | some v => Except.ok (acc ++ [v])
        | none =>
            match f.fdefault with
            | some d => Except.ok (acc ++ [d])
            | none => Except.error "TypeError: missing required argument")
      []
  with
  | Except.error e => Except.error e
  | Except.ok fieldVals =>
      Except.ok (PyVal.vrec r (recPostInit r (PyList.ofList fieldVals)))

/-! ### Serialization of modification operations (data_edit.py lines 19-61)

`ModificationFunc.serialize` dispatches on membership of the value's class
in the `ParamlessModFunc` / `ParamSingleModFunc` / `ParamNModFunc` groups;
`Previous.serialize` is overridden to the bare marker string.
`InsertNewlines` belongs to no group, so serializing it fails. -/

/-- Build an embedded dict from a list of entries with distinct keys. -/
def PyPairs.ofList : List (PyVal × PyVal) → PyPairs
  | [] => .nil
  | (k, v) :: rest => .cons k v (PyPairs.ofList rest)

/-- Serialization of one `TextModi` value, as its own
`ModificationFunc.serialize` produces it. -/
def textModSerialize : TextMod → Except String PyVal
  | .strip => Except.ok (.vstr "STRIP")
  | .removeOp p => Except.ok (.vdict (.cons (.vstr "REMOVE") (.vstr p) .nil))
  | .insertNewlines _ => Except.error "Cannot serialize class InsertNewlines"

/-- `_serialize_to(TextModi | list[TextModi], f_val)`: a single value
carries its own `serialize`; a list matches the `list[TextModi]` union
member and is serialized elementwise. -/
def postFmtSerialize : PostFmt → Except String PyVal
  | .one m => textModSerialize m
  | .many ms =>
      (ms.mapM textModSerialize).map (fun l => PyVal.vlist (PyList.ofList l))

/-- `ModificationFunc.serialize` / `Previous.serialize` (data_edit.py
lines 19-61 and 260-261).  For the `ParamNModFunc` classes each field is
serialized by declaration order, skipping fields equal to their dataclass
default. -/
def modSerialize : ModVal → Except String PyVal
  | .strip => Except.ok (.vstr "STRIP")
  | .previous => Except.ok (.vstr "PREVIOUS")
  | .removeOp p =>
      Except.ok (.vdict (.cons (.vstr "REMOVE") (.vstr p) .nil))
  | .insertNewlines _ => Except.error "Cannot serialize class InsertNewlines"
  | .moveOp toCat regex post_format name icon control => do
      let pfPart ←
        if post_format = PostFmt.one TextMod.strip then pure []
        else do
          let s ← postFmtSerialize post_format
          pure [(PyVal.vstr "post_format", s)]
      let entries : List (PyVal × PyVal) :=
        [(PyVal.vstr "to", PyVal.vstr toCat)]
        ++ (match regex with
            | some r => [(PyVal.vstr "regex", PyVal.vstr r)]
            | none => [])
        ++ pfPart
        ++ (match name with
            | some n => [(PyVal.vstr "name", PyVal.vstr n)]
            | none => [])
        ++ (match icon with
            | some i => [(PyVal.vstr "icon", PyVal.vstr i)]
            | none => [])
        ++ (if control = [] then []
            else [(PyVal.vstr "control",
                   PyVal.vlist (PyList.ofList
                     (control.map (fun op => PyVal.vstr op.opName))))])
      pure (.vdict (.cons (.vstr "MOVE") (.vdict (PyPairs.ofList entries)) .nil))
  | .modifyOp name desc icon control =>
      let entries : List (PyVal × PyVal) :=
        (match name with
         | some n => [(PyVal.vstr "name", PyVal.vstr n)]
         | none => [])
        ++ (match desc with
            | some d => [(PyVal.vstr "desc", PyVal.vstr d)]
            | none => [])
        ++ (match icon with
            | some i => [(PyVal.vstr "icon", PyVal.vstr i)]
            | none => [])
        ++ (match control with
            | some c =>
                [(PyVal.vstr "control",
                  PyVal.vlist (PyList.ofList
                    (c.map (fun op => PyVal.vstr op.opName))))]
            | none => [])
      Except.ok
        (.vdict (.cons (.vstr "MODIFY") (.vdict (PyPairs.ofList entries)) .nil))

/-! ### The generic serializer (`_serialize_to`, data_types.py lines 72-116) -/

/-- The bare runtime class of a primitive value, when that class can occur
among union members (`type(value) in args`). -/
def bareTyOf : PyVal → Option Ty
  | .vstr _ => some Ty.str
  | .vint _ => some Ty.int
  | .vnone => some Ty.noneT
  | _ => none

/-- Membership of a primitive type among union members. -/
def primMem (bt : Ty) (ts : List Ty) : Bool :=
  match bt with
  | .str => ts.any (fun t => match t with | .str => true | _ => false)
  | .int => ts.any (fun t => match t with | .int => true | _ => false)
  | .noneT => ts.any (fun t => match t with | .noneT => true | _ => false)
  | _ => false


mutual
/-- `Exportable._serialize_to(_type, value)` (data_types.py lines 72-116):
a value with its own `serialize` delegates to it regardless of the
declared type; primitives pass through unchecked; `list`/`set`/`tuple`
declarations serialize the iterated value to a list; dicts serialize
entrywise into a fresh dict; single-type `Literal`s delegate to the
literal's type; unions first try `type(value) in args`, then scan the
members for an origin match; everything else fails. -/
def serializeTo (t : Ty) (v : PyVal) : Except String PyVal :=
  match v with
  | .venum k i => Except.ok (.vstr (enumMemberName k i))
  | .vrec r fs => (recSerialize (recFields r) fs).map PyVal.vdict
  | .vmod m => modSerialize m
  | .vstr s =>
      match t with
      | .str => Except.ok (.vstr s)
      | .int => Except.ok (.vstr s)
      | .noneT => Except.ok (.vstr s)
      | .litStrs ss =>
          if ss = [] then Except.error "Literal? really?"
          else Except.ok (.vstr s)
      | .union ts =>
          if primMem Ty.str ts then Except.ok (.vstr s)
          else unionSerLoop ts (.vstr s)
      | .listT _ => Except.error "TypeError: not iterable"
      | .setT _ => Except.error "TypeError: not iterable"
      | .tupleT _ => Except.error "TypeError: not iterable"
      | .dictT _ _ => Except.error "AttributeError"
      | .recT _ => Except.error "Cannot serialize"
      | .enum _ => Except.error "Cannot serialize"
      | .mfunc => Except.error "Cannot serialize"
  | .vint n =>
      match t with
      | .str => Except.ok (.vint n)
      | .int => Except.ok (.vint n)
      | .noneT => Except.ok (.vint n)
      | .litStrs ss =>
          if ss = [] then Except.error "Literal? really?"
          else Except.ok (.vint n)
      | .union ts =>
          if primMem Ty.int ts then Except.ok (.vint n)
          else unionSerLoop ts (.vint n)
      | .listT _ => Except.error "TypeError: not iterable"
      | .setT _ => Except.error "TypeError: not iterable"
      | .tupleT _ => Except.error "TypeError: not iterable"
      | .dictT _ _ => Except.error "AttributeError"
      | .recT _ => Except.error "Cannot serialize"
      | .enum _ => Except.error "Cannot serialize"
      | .mfunc => Except.error "Cannot serialize"
  | .vnone =>
      match t with
      | .str => Except.ok .vnone
      | .int => Except.ok .vnone
      | .noneT => Except.ok .vnone
      | .litStrs ss =>
          if ss = [] then Except.error "Literal? really?" else Except.ok .vnone
      | .union ts =>
          if primMem Ty.noneT ts then Except.ok .vnone
          else unionSerLoop ts .vnone
      | .listT _ => Except.error "TypeError: not iterable"
      | .setT _ => Except.error "TypeError: not iterable"
      | .tupleT _ => Except.error "TypeError: not iterable"
      | .dictT _ _ => Except.error "AttributeError"
      | .recT _ => Except.error "Cannot serialize"
      | .enum _ => Except.error "Cannot serialize"
      | .mfunc => Except.error "Cannot serialize"
  | .vlist xs =>
      match t with
      | .str => Except.ok (.vlist xs)
      | .int => Except.ok (.vlist xs)
      | .noneT => Except.ok (.vlist xs)
      | .listT a => (serializeList a xs).map PyVal.vlist
      | .setT a => (serializeList a xs).map PyVal.vlist
      | .tupleT a => (serializeList a xs).map PyVal.vlist
      | .litStrs ss =>
          if ss = [] then Except.error "Literal? really?"
          else Except.ok (.vlist xs)
      | .union ts => unionSerLoop ts (.vlist xs)
      | .dictT _ _ => Except.error "AttributeError"
      | .recT _ => Except.error "Cannot serialize"
      | .enum _ => Except.error "Cannot serialize"
      | .mfunc => Except.error "Cannot serialize"
  | .vset xs =>
      match t with
      | .str => Except.ok (.vset xs)
      | .int => Except.ok (.vset xs)
      | .noneT => Except.ok (.vset xs)
      | .listT a => (serializeList a xs).map PyVal.vlist
      | .setT a => (serializeList a xs).map PyVal.vlist
      | .tupleT a => (serializeList a xs).map PyVal.vlist
      | .litStrs ss =>
          if ss = [] then Except.error "Literal? really?"
          else Except.ok (.vset xs)
      | .union ts => unionSerLoop ts (.vset xs)
      | .dictT _ _ => Except.error "AttributeError"
      | .recT _ => Except.error "Cannot serialize"
      | .enum _ => Except.error "Cannot serialize"
      | .mfunc => Except.error "Cannot serialize"
  | .vtuple xs =>
      match t with
      | .str => Except.ok (.vtuple xs)
      | .int => Except.ok (.vtuple xs)
      | .noneT => Except.ok (.vtuple xs)
      | .listT a => (serializeList a xs).map PyVal.vlist
      | .setT a => (serializeList a xs).map PyVal.vlist
      | .tupleT a => (serializeList a xs).map PyVal.vlist
      | .litStrs ss =>
          if ss = [] then Except.error "Literal? really?"
          else Except.ok (.vtuple xs)
      | .union ts => unionSerLoop ts (.vtuple xs)
      | .dictT _ _ => Except.error "AttributeError"
      | .recT _ => Except.error "Cannot serialize"
      | .enum _ => Except.error "Cannot serialize"
      | .mfunc => Except.error "Cannot serialize"
  | .vdict es =>
      match t with
      | .str => Except.ok (.vdict es)
      | .int => Except.ok (.vdict es)
      | .noneT => Except.ok (.vdict es)
      | .dictT kt vt => (serializePairs kt vt es PyPairs.nil).map PyVal.vdict
      | .litStrs ss =>
          if ss = [] then Except.error "Literal? really?"
          else Except.ok (.vdict es)
      | .union ts => unionSerLoop ts (.vdict es)
      | .listT _ => Except.error "TypeError: not iterable"
      | .setT _ => Except.error "TypeError: not iterable"
      | .tupleT _ => Except.error "TypeError: not iterable"
      | .recT _ => Except.error "Cannot serialize"
      | .enum _ => Except.error "Cannot serialize"
      | .mfunc => Except.error "Cannot serialize"
termination_by (sizeOf v, 1, sizeOf t)

/-- The union member scan of `_serialize_to` (lines 104-111): the first
member whose origin matches the value's runtime class serializes it. -/
def unionSerLoop (ts : List Ty) (v : PyVal) : Except String PyVal :=
  match ts with
  | [] => Except.error "Cannot serialize union type"
  | t' :: rest =>
      match t' with
      | .listT a =>
          match v with
          | .vlist xs => (serializeList a xs).map PyVal.vlist
          | other => unionSerLoop rest other
      | .setT a =>
          match v with
          | .vset xs => (serializeList a xs).map PyVal.vlist
          | other => unionSerLoop rest other
      | .tupleT a =>
          match v with
          | .vtuple xs => (serializeList a xs).map PyVal.vlist
          | other => unionSerLoop rest other
      | .dictT kt vt =>
          match v with
          | .vdict es => (serializePairs kt vt es PyPairs.nil).map PyVal.vdict
          | other => unionSerLoop rest other
      | _ => unionSerLoop rest v
termination_by (sizeOf v, 0, sizeOf ts)

/-- Elementwise serialization of an iterated value. -/
def serializeList (a : Ty) (xs : PyList) : Except String PyList :=
  match xs with
  | .nil => Except.ok .nil
  | .cons x rest => do
      let sx ← serializeTo a x
      let srest ← serializeList a rest
      pure (.cons sx srest)
termination_by (sizeOf xs, 1, sizeOf a)

/-- Entrywise serialization of a dict (lines 83-88): `d[ser k] = ser v`
over a fresh dict, with Python-dict overwrite on key collision. -/
def serializePairs (kt vt : Ty) (es : PyPairs) (acc : PyPairs) :
    Except String PyPairs :=
  match es with
  | .nil => Except.ok acc
  | .cons k v rest => do
      let sk ← serializeTo kt k
      let sv ← serializeTo vt v
      serializePairs kt vt rest (acc.upsert sk sv)
termination_by (sizeOf es, 1, 0)

/-- `Exportable.serialize` (lines 118-125): `d[f.name] =
_serialize_to(f.type, getattr(self, f.name))` over the declared fields,
which the embedded record stores positionally. -/
def recSerialize (fs : List FieldSpec) (vs : PyList) :
    Except String PyPairs :=
  match fs, vs with
  | [], .nil => Except.ok .nil
  | f :: frest, .cons x xrest => do
      let sv ← serializeTo f.ftype x
      let srest ← recSerialize frest xrest
      pure (.cons (.vstr f.fname) sv srest)
  | _, _ => Except.error "field arity mismatch"
termination_by (sizeOf vs, 1, sizeOf fs)
end

/-! ### The generic deserializer (`_deserialize_as`, data_types.py
lines 127-197, and `ModificationFunc.deserialize`, data_edit.py
lines 63-105) -/

/-- Decode an embedded list of serialized-then-parsed `Operation` members
back into the dataclass-level list. -/
def decodeOpsL : PyList → Option (List Operation)
  | .nil => some []
  | .cons (PyVal.venum .operation i) xs =>
      (decodeOpsL xs).map (fun r => opFromIdx i :: r)
  | .cons _ _ => none

/-- Decode a parsed `list[Operation]` value. -/
def decodeOps : PyVal → Option (List Operation)
  | .vlist xs => decodeOpsL xs
  | _ => none

/-- View a parsed `ModificationFunc` value as a `TextModi` one. -/
def asTextMod : ModVal → Option TextMod
  | .strip => some TextMod.strip
  | .removeOp p => some (TextMod.removeOp p)
  | .insertNewlines r => some (TextMod.insertNewlines r)
  | _ => none

mutual
/-- `ModificationFunc.deserialize(item)` (data_edit.py lines 63-105):
a bare string names a `ParamlessModFunc` member; otherwise the first dict
key names the class — `REMOVE` takes its single argument (with the
dict-argument compatibility path), `MOVE`/`MODIFY` deserialize each
present field through `_deserialize_as` at its declared type and construct
the dataclass, defaulting the absent fields. -/
def modDeserialize (v : PyVal) : Except String PyVal :=
  match v with
  | .vstr s =>
      if s = "STRIP" then Except.ok (.vmod .strip)
      else if s = "PREVIOUS" then Except.ok (.vmod .previous)
      else Except.error "Invalid item"
  | .vdict es =>
      match es with
      | .nil => Except.error "IndexError"
      | .cons ck arg _ =>
          match ck with
          | .vstr classname =>
              if classname = "REMOVE" then
                match arg with
                | .vstr p => Except.ok (.vmod (.removeOp p))
                | .vdict argd =>
                    if argd.len > 1 then Except.error "More than one value"
                    else
                      match argd with
                      | .cons _ (PyVal.vstr p) _ =>
                          Except.ok (.vmod (.removeOp p))
                      | _ => Except.error "unmodelled Remove argument"
                | _ => Except.error "unmodelled Remove argument"
              else if classname = "MOVE" then
                match arg with
                | .vdict d => do
                    let toV ←
                      match hto : d.lookup (.vstr "to") with
                      | some tv => do
                          let r ← deserializeAs
                            (Ty.litStrs ["normals", "dodges", "skills",
                              "discharges", "passives"]) tv
                          match r with
                          | .vstr s => pure (some s)
                          | _ => Except.error "unmodelled Move.to"
                      | none => pure none
                    let regexV ←
                      match hrx : d.lookup (.vstr "regex") with
                      | some rv => do
                          let r ← deserializeAs (Ty.union [Ty.str, Ty.noneT]) rv
                          match r with
                          | .vstr s => pure (some (some s))
                          | .vnone => pure (some (none : Option String))
                          | _ => Except.error "unmodelled Move.regex"
                      | none => pure none
                    let pfV ←
                      match hpf : d.lookup (.vstr "post_format") with
                      | some pv => do
                          let r ← deserializeAs
                            (Ty.union [Ty.mfunc, Ty.listT Ty.mfunc]) pv
                          match r with
                          | .vmod m =>
                              match asTextMod m with
                              | some tm => pure (some (PostFmt.one tm))
                              | none =>
                                  Except.error "unmodelled non-text post_format"
                          | _ => Except.error "unmodelled post_format"
                      | none => pure none
                    let nameV ←
                      match hnm : d.lookup (.vstr "name") with
                      | some nv => do
                          let r ← deserializeAs (Ty.union [Ty.str, Ty.noneT]) nv
                          match r with
                          | .vstr s => pure (some (some s))
                          | .vnone => pure (some (none : Option String))
                          | _ => Except.error "unmodelled Move.name"
                      | none => pure none
                    let iconV ←
                      match hic : d.lookup (.vstr "icon") with
                      | some iv => do
                          let r ← deserializeAs (Ty.union [Ty.str, Ty.noneT]) iv
                          match r with
                          | .vstr s => pure (some (some s))
                          | .vnone => pure (some (none : Option String))
                          | _ => Except.error "unmodelled Move.icon"
                      | none => pure none
                    let ctlV ←
                      match hct : d.lookup (.vstr "control") with
                      | some cv => do
                          let r ← deserializeAs
                            (Ty.listT (Ty.enum .operation)) cv
                          match decodeOps r with
                          | some ops => pure (some ops)
                          | none => Except.error "unmodelled Move.control"
                      | none => pure none
                    match toV with
                    | none =>
                        Except.error "TypeError: missing required argument"
                    | some toCat =>
                        pure (.vmod (.moveOp toCat regexV.join
                          (pfV.getD (PostFmt.one TextMod.strip))
                          nameV.join iconV.join (ctlV.getD [])))
                | _ => Except.error "AttributeError"
              else if classname = "MODIFY" then
                match arg with
                | .vdict d => do
                    let nameV ←
                      match hnm : d.lookup (.vstr "name") with
                      | some nv => do
                          let r ← deserializeAs (Ty.union [Ty.str, Ty.noneT]) nv
                          match r with
                          | .vstr s => pure (some (some s))
                          | .vnone => pure (some (none : Option String))
                          | _ => Except.error "unmodelled Modify.name"
                      | none => pure none
                    let descV ←
                      match hds : d.lookup (.vstr "desc") with
                      | some dv => do
                          let r ← deserializeAs (Ty.union [Ty.str, Ty.noneT]) dv
                          match r with
                          | .vstr s => pure (some (some s))
                          | .vnone => pure (some (none : Option String))
                          | _ => Except.error "unmodelled Modify.desc"
                      | none => pure none
                    let iconV ←
                      match hic : d.lookup (.vstr "icon") with
                      | some iv => do
                          let r ← deserializeAs (Ty.union [Ty.str, Ty.noneT]) iv
                          match r with
                          | .vstr s => pure (some (some s))
                          | .vnone => pure (some (none : Option String))
                          | _ => Except.error "unmodelled Modify.icon"
                      | none => pure none
                    let ctlV ←
                      match hct : d.lookup (.vstr "control") with
                      | some cv => do
                          let r ← deserializeAs
                            (Ty.union [Ty.listT (Ty.enum .operation), Ty.noneT])
                            cv
                          match r with
                          | .vnone =>
                              pure (some (none : Option (List Operation)))
                          | _ => Except.error "unmodelled Modify.control"
                      | none => pure none
                    pure (.vmod (.modifyOp nameV.join descV.join iconV.join
                      ctlV.join))
                | _ => Except.error "AttributeError"
              else Except.error "Cannot find appropriate class"
          | _ => Except.error "Cannot find appropriate class"
  | _ => Except.error "AttributeError"
termination_by (sizeOf v, 0, 0)
decreasing_by
  all_goals
    first
      | decreasing_tactic
      | (simp_wf;
         apply Prod.Lex.left;
         first
           | (have hsz := PyPairs.sizeOf_lookup hto; omega)
           | (have hsz := PyPairs.sizeOf_lookup hrx; omega)
           | (have hsz := PyPairs.sizeOf_lookup hpf; omega)
           | (have hsz := PyPairs.sizeOf_lookup hnm; omega)
           | (have hsz := PyPairs.sizeOf_lookup hic; omega)
           | (have hsz := PyPairs.sizeOf_lookup hct; omega)
           | (have hsz := PyPairs.sizeOf_lookup hds; omega))

/-- The brute-force second pass of the union deserializer (data_types.py
lines 178-181): the first member with its own `deserialize` consumes the
value. -/
def bruteLoop (ts : List Ty) (v : PyVal) : Except String PyVal :=
  match ts with
  | [] => Except.error "Cannot deserialize union type"
  | t' :: rest =>
      match t' with
      | .enum k =>
          match v with
          | .vstr s =>
              match enumFromName k s with
              | some i => Except.ok (.venum k i)
              | none => Except.error "KeyError"
          | _ => Except.error "KeyError"
      | .recT r =>
          match v with
          | .vdict es => recDeserialize r es
          | _ => Except.error "AttributeError"
      | .mfunc => modDeserialize v
      | _ => bruteLoop rest v
termination_by (sizeOf v, 1, sizeOf ts)

/-- The first pass of the union deserializer (data_types.py
lines 158-176): an exact primitive class match passes through; a container
value whose runtime class equals a member's origin raises the
`Matching vtype! #TODO` error; members with their own `deserialize`
consume dict values. -/
def unionDeserLoop (allTs : List Ty) (ts : List Ty) (v : PyVal) :
    Except String PyVal :=
  match ts with
  | [] => bruteLoop allTs v
  | t' :: rest =>
      match t' with
      | .str =>
          match v with
          | .vstr s => Except.ok (.vstr s)
          | other => unionDeserLoop allTs rest other
      | .int =>
          match v with
          | .vint n => Except.ok (.vint n)
          | other => unionDeserLoop allTs rest other
      | .noneT =>
          match v with
          | .vnone => Except.ok .vnone
          | other => unionDeserLoop allTs rest other
      | .listT _ =>
          match v with
          | .vlist _ => Except.error "Matching vtype! #TODO"
          | other => unionDeserLoop allTs rest other
      | .setT _ =>
          match v with
          | .vset _ => Except.error "Matching vtype! #TODO"
          | other => unionDeserLoop allTs rest other
      | .tupleT _ =>
          match v with
          | .vtuple _ => Except.error "Matching vtype! #TODO"
          | other => unionDeserLoop allTs rest other
      | .dictT _ _ =>
          match v with
          | .vdict _ => Except.error "Matching vtype! #TODO"
          | other => unionDeserLoop allTs rest other
      | .recT r =>
          match v with
          | .vdict es => recDeserialize r es
          | .vrec r2 fs =>
              if r = r2 then Except.error "AttributeError"
              else unionDeserLoop allTs rest (.vrec r2 fs)
          | other => unionDeserLoop allTs rest other
      | .mfunc =>
          match v with
          | .vdict es => modDeserialize (.vdict es)
          | other => unionDeserLoop allTs rest other
      | .enum k =>
          match v with
          | .vdict _ => Except.error "TypeError"
          | .venum k2 i =>
              if k = k2 then Except.error "KeyError"
              else unionDeserLoop allTs rest (.venum k2 i)
          | other => unionDeserLoop allTs rest other
      | .litStrs _ => unionDeserLoop allTs rest v
      | .union _ => unionDeserLoop allTs rest v
termination_by (sizeOf v, 2, sizeOf ts)

/-- `Exportable._deserialize_as(_type, value)` (data_types.py
lines 127-197): a declared type with its own `deserialize` consumes the
value first (enums, `Exportable` classes, the `ModificationFunc` base);
primitives pass through; containers deserialize elementwise (`set(...)`
deduplicates, keys are reassigned dict-style); single-type string
`Literal`s are piped through `_serialize_to(str, value)`; unions run the
two-pass member scan. -/
def deserializeAs (t : Ty) (v : PyVal) : Except String PyVal :=
  match t with
  | .enum k =>
      match v with
      | .vstr s =>
          match enumFromName k s with
          | some i => Except.ok (.venum k i)
          | none => Except.error "KeyError"
      | _ => Except.error "KeyError"
  | .recT r =>
      match v with
      | .vdict es => recDeserialize r es
      | _ => Except.error "AttributeError"
  | .mfunc => modDeserialize v
  | .str => Except.ok v
  | .int => Except.ok v
  | .noneT => Except.ok v
  | .listT a =>
      match v with
      | .vlist xs => (deserializeList a xs).map PyVal.vlist
      | _ => Except.error "TypeError: not iterable"
  | .setT a =>
      match v with
      | .vlist xs =>
          (deserializeList a xs).map (fun l => PyVal.vset (l.dedupGo []))
      | _ => Except.error "TypeError: not iterable"
  | .tupleT a =>
      match v with
      | .vlist xs => (deserializeList a xs).map PyVal.vtuple
      | _ => Except.error "TypeError: not iterable"
  | .dictT kt vt =>
      match v with
      | .vdict es => (deserializePairs kt vt es PyPairs.nil).map PyVal.vdict
      | _ => Except.error "AttributeError"
  | .litStrs ss =>
      if ss = [] then Except.error "Cannot deserialize mixed literals"
      else
        match v with
        | .venum k i => Except.ok (.vstr (enumMemberName k i))
        | .vrec r fs => (recSerialize (recFields r) fs).map PyVal.vdict
        | .vmod m => modSerialize m
        | other => Except.ok other
  | .union ts => unionDeserLoop ts ts v
termination_by (sizeOf v, 3, sizeOf t)

/-- Elementwise deserialization of a list value. -/
def deserializeList (a : Ty) (xs : PyList) : Except String PyList :=
  match xs with
  | .nil => Except.ok .nil
  | .cons x rest => do
      let dx ← deserializeAs a x
      let drest ← deserializeList a rest
      pure (.cons dx drest)
termination_by (sizeOf xs, 3, sizeOf a)

/-- Entrywise deserialization of a dict value (lines 148-156). -/
def deserializePairs (kt vt : Ty) (es : PyPairs) (acc : PyPairs) :
    Except String PyPairs :=
  match es with
  | .nil => Except.ok acc
  | .cons k v rest => do
      let dk ← deserializeAs kt k
      let dv ← deserializeAs vt v
      deserializePairs kt vt rest (acc.upsert dk dv)
termination_by (sizeOf es, 3, 0)

/-- The field loop of `Exportable.deserialize` (lines 199-209): each
declared field present in the dict is deserialized at its declared type;
absent fields are skipped. -/
def deserializeFields (fs : List FieldSpec) (es : PyPairs) :
    Except String (List (String × PyVal)) :=
  match fs with
  | [] => Except.ok []
  | f :: frest =>
      match hl : es.lookup (.vstr f.fname) with
      | none => deserializeFields frest es
      | some fv => do
          let dv ← deserializeAs f.ftype fv
          let rest ← deserializeFields frest es
          pure ((f.fname, dv) :: rest)
termination_by (sizeOf es, 4, sizeOf fs)
decreasing_by
  all_goals
    first
      | decreasing_tactic
      | (simp_wf;
         apply Prod.Lex.left;
         have hsz := PyPairs.sizeOf_lookup hl;
         omega)

/-- `Exportable.deserialize` (lines 199-211): deserialize the present
fields, then construct through `cls(**d)`. -/
def recDeserialize (r : RecName) (es : PyPairs) : Except String PyVal :=
  match deserializeFields (recFields r) es with
  | Except.error e => Except.error e
  | Except.ok provided => buildRec r provided
termination_by (sizeOf es, 5, 0)
end

/-! ### Well-formedness: values reachable through the declared schema

`Safe t v` carves out the schema-reachable values for which the round-trip
law holds; per the counterexamples below it must exclude exactly the
union-typed positions holding parameterized-container values (which the
union deserializer rejects with `Matching vtype! #TODO`) and the
unserializable `InsertNewlines` class. -/

/-- `TextModi` values surviving the round trip (`InsertNewlines` cannot be
serialized: it belongs to no `ModFunc` enum group). -/
def TextMod.safe : TextMod → Bool
  | .strip => true
  | .removeOp _ => true
  | .insertNewlines _ => false

/-- Modification values surviving the round trip: a list-valued
`Move.post_format` and a non-`None` `Modify.control` are exactly the
union-typed container positions the deserializer rejects. -/
def ModVal.safe : ModVal → Bool
  | .strip => true
  | .previous => true
  | .removeOp _ => true
  | .insertNewlines _ => false
  | .moveOp _ _ pf _ _ _ =>
      (match pf with
       | .one tm => tm.safe
       | .many _ => false)
  | .modifyOp _ _ _ control => control.isNone

mutual
/-- Typed, schema-reachable, round-trip-safe values. -/
inductive Safe : Ty → PyVal → Prop where
  | vstr (s : String) : Safe Ty.str (.vstr s)
  | vint (n : Int) : Safe Ty.int (.vint n)
  | vnone : Safe Ty.noneT .vnone
  | venum (k : EnumKind) (i : Nat) (h : i < (enumMembers k).length) :
      Safe (Ty.enum k) (.venum k i)
  | vlist (a : Ty) (xs : PyList) (h : SafeL a xs) :
      Safe (Ty.listT a) (.vlist xs)
  | vset (a : Ty) (xs : PyList) (h : SafeL a xs) (hnd : xs.nodup = true) :
      Safe (Ty.setT a) (.vset xs)
  | vtuple (a : Ty) (xs : PyList) (h : SafeL a xs) :
      Safe (Ty.tupleT a) (.vtuple xs)
  | vdict (kt vt : Ty) (es : PyPairs) (h : SafeP kt vt es)
      (hnd : es.nodupKeys = true) : Safe (Ty.dictT kt vt) (.vdict es)
  | vlit (ss : List String) (s : String) (hne : ss ≠ []) :
      Safe (Ty.litStrs ss) (.vstr s)
  | vrec (r : RecName) (fs : PyList) (h : SafeFs (recFields r) fs)
      (hfix : recPostInit r fs = fs) : Safe (Ty.recT r) (.vrec r fs)
  | vmodS (m : ModVal) (h : m.safe = true) : Safe Ty.mfunc (.vmod m)
  | uPrim (ts : List Ty) (v : PyVal) (bt : Ty) (hb : bareTyOf v = some bt)
      (hmem : primMem bt ts = true) : Safe (Ty.union ts) v
  | uMod (m : ModVal) (h : m.safe = true) :
      Safe (Ty.union [Ty.mfunc, Ty.listT Ty.mfunc]) (.vmod m)
/-- Elementwise safety of a list value. -/
inductive SafeL : Ty → PyList → Prop where
  | nil (a : Ty) : SafeL a .nil
  | cons (a : Ty) (x : PyVal) (xs : PyList) (hx : Safe a x)
      (hxs : SafeL a xs) : SafeL a (.cons x xs)
/-- Entrywise safety of a dict value. -/
inductive SafeP : Ty → Ty → PyPairs → Prop where
  | nil (kt vt : Ty) : SafeP kt vt .nil
  | cons (kt vt : Ty) (k v : PyVal) (ps : PyPairs) (hk : Safe kt k)
      (hv : Safe vt v) (hps : SafeP kt vt ps) :
      SafeP kt vt (.cons k v ps)
/-- Fieldwise safety of a record's positional field values. -/
inductive SafeFs : List FieldSpec → PyList → Prop where
  | nil : SafeFs [] .nil
  | cons (f : FieldSpec) (fs : List FieldSpec) (v : PyVal) (vs : PyList)
      (hv : Safe f.ftype v) (hvs : SafeFs fs vs) :
      SafeFs (f :: fs) (.cons v vs)
end

/-- Decidable equality of `Except` results, for concrete evaluations. -/
def exceptDecEq {ε α : Type} [DecidableEq ε] [DecidableEq α] :
    (a b : Except ε α) → Decidable (a = b)
  | .ok x, .ok y =>
      if h : x = y then .isTrue (by rw [h])
      else .isFalse (by simp [h])
  | .error x, .error y =>
      if h : x = y then .isTrue (by rw [h])
      else .isFalse (by simp [h])
  | .ok _, .error _ => .isFalse (fun hc => Except.noConfusion hc)
  | .error _, .ok _ => .isFalse (fun hc => Except.noConfusion hc)

instance {ε α : Type} [DecidableEq ε] [DecidableEq α] :
    DecidableEq (Except ε α) :=
  exceptDecEq

/-! # Theorems -/

/-! ## The AbilityItem order (claims C6, C7) -/

theorem ctlLt_nil_right : ∀ xs : List Operation, ctlLt xs [] = false := by
  intro xs
  cases xs <;> simp [ctlLt]

theorem ctlLt_asymm :
    ∀ xs ys : List Operation, ctlLt xs ys = true → ctlLt ys xs = false := by
  intro xs
  induction xs with
  | nil => intro ys _; exact ctlLt_nil_right ys
  | cons x xs ih =>
      intro ys h
      cases ys with
      | nil => simp [ctlLt] at h
      | cons y ys =>
          by_cases hsv : x.sortValue = y.sortValue
          · simp [ctlLt, hsv] at h ⊢
            exact ih ys h
          · simp [ctlLt, hsv] at h
            have hsv' : y.sortValue ≠ x.sortValue := fun hc => hsv hc.symm
            simp [ctlLt, hsv']
            omega

theorem ctlLt_negtrans :
    ∀ a b c : List Operation,
      ctlLt b a = false → ctlLt c b = false → ctlLt c a = false := by
  intro a
  induction a with
  | nil => intro b c _ _; exact ctlLt_nil_right c
  | cons x a ih =>
      intro b c h1 h2
      cases b with
      | nil => simp [ctlLt] at h1
      | cons y b =>
          cases c with
          | nil => simp [ctlLt] at h2
          | cons z c =>
              by_cases hyx : y.sortValue = x.sortValue
              · by_cases hzy : z.sortValue = y.sortValue
                · simp [ctlLt, hyx] at h1
                  simp [ctlLt, hzy] at h2
                  have hzx : z.sortValue = x.sortValue := hzy.trans hyx
                  simp [ctlLt, hzx]
                  exact ih b c h1 h2
                · simp [ctlLt, hzy] at h2
                  have hzx : z.sortValue ≠ x.sortValue := by
                    rw [← hyx]; exact hzy
                  simp [ctlLt, hzx]
                  omega
              · simp [ctlLt, hyx] at h1
                by_cases hzy : z.sortValue = y.sortValue
                · have hzx : z.sortValue ≠ x.sortValue := by
                    rw [hzy]; exact hyx
                  simp [ctlLt, hzx]
                  omega
                · simp [ctlLt, hzy] at h2
                  have hzx : z.sortValue ≠ x.sortValue := by omega
                  simp [ctlLt, hzx]
                  omega

theorem abLt_asymm (a b : AbilityItem) :
    AbilityItem.lt a b = true → AbilityItem.lt b a = false := by
  intro h
  by_cases ha : a.control = []
  · simp [AbilityItem.lt, ha] at h
  · by_cases hb : b.control = []
    · simp [AbilityItem.lt, hb, ha]
    · simp [AbilityItem.lt, ha, hb] at h ⊢
      exact ctlLt_asymm _ _ h

theorem abLt_negtrans (a b c : AbilityItem) :
    AbilityItem.lt b a = false → AbilityItem.lt c b = false →
    AbilityItem.lt c a = false := by
  intro h1 h2
  by_cases hc : c.control = []
  · simp [AbilityItem.lt, hc]
  · by_cases ha : a.control = []
    · by_cases hb : b.control = []
      · simp [AbilityItem.lt, hc, hb] at h2
      · simp [AbilityItem.lt, hb, ha] at h1
    · by_cases hb : b.control = []
      · simp [AbilityItem.lt, hc, hb] at h2
      · simp [AbilityItem.lt, hc, ha, hb] at h1 h2 ⊢
        exact ctlLt_negtrans a.control b.control c.control h1 h2

theorem abLe_trans :
    ∀ a b c : AbilityItem, AbilityItem.le a b = true →
      AbilityItem.le b c = true → AbilityItem.le a c = true := by
  intro a b c h1 h2
  simp [AbilityItem.le] at h1 h2 ⊢
  exact abLt_negtrans a b c h1 h2

theorem abLe_total :
    ∀ a b : AbilityItem, (AbilityItem.le a b || AbilityItem.le b a) = true := by
  intro a b
  simp [AbilityItem.le]
  by_cases h : AbilityItem.lt a b = true
  · exact Or.inl (abLt_asymm a b h)
  · exact Or.inr (by simpa using h)

/-- C6 (amended): the part of the claim the code satisfies — immediately
after construction (which always runs `__post_init__`) the normals and
dodges lists are sorted under the induced `AbilityItem` comparison. -/
theorem C6_weapon_sorted_after_construction (w : Weapon) :
    List.Pairwise (fun a b => AbilityItem.le a b = true) (mkWeapon w).normals ∧
    List.Pairwise (fun a b => AbilityItem.le a b = true) (mkWeapon w).dodges := by
  constructor
  · exact List.sorted_mergeSort abLe_trans abLe_total w.normals
  · exact List.sorted_mergeSort abLe_trans abLe_total w.dodges

/-- C6 (counterexample): the claim as stated is false — the sortedness
invariant is not preserved by the edit-DSL `Move` operation.  The weapon
below is exactly what construction produces (`mkWeapon` fixes it), yet
moving the dodge ability into `normals` appends it after a larger item,
leaving `normals` unsorted. -/
theorem C6_counterexample :
    mkWeapon
        { char := "A",
          normals := [⟨"n", "", "", [Operation.DODGE]⟩],
          dodges := [⟨"d", "", "", [Operation.ATTACK]⟩] } =
      { char := "A",
        normals := [⟨"n", "", "", [Operation.DODGE]⟩],
        dodges := [⟨"d", "", "", [Operation.ATTACK]⟩] } ∧
    applyOne (ModVal.moveOp "normals" none (PostFmt.one TextMod.strip)
        none none [])
      { char := "A",
        normals := [⟨"n", "", "", [Operation.DODGE]⟩],
        dodges := [⟨"d", "", "", [Operation.ATTACK]⟩] }
      "dodges" 0 "dodges" =
      Except.ok
        ({ char := "A",
           normals := [⟨"n", "", "", [Operation.DODGE]⟩,
             ⟨"d", "", "", [Operation.ATTACK]⟩],
           dodges := [] }, "normals", 1) ∧
    ¬ List.Pairwise (fun a b => AbilityItem.le a b = true)
      [(⟨"n", "", "", [Operation.DODGE]⟩ : AbilityItem),
       ⟨"d", "", "", [Operation.ATTACK]⟩] := by
  refine ⟨?_, ?_, ?_⟩
  · simp [mkWeapon, weaponPostInit, pySorted]
  · rfl
  · decide

/-- C7: the `AbilityItem` comparison is a total (weak) order used for
sorting: the induced non-strict comparison is transitive and total and the
strict part is asymmetric; an item with empty control sorts after every
item with non-empty control; on non-empty controls the comparison is the
lexicographic walk over remapped `sort_value`s (DIRECTIONAL_KEY remapped
to 1, every other token its enum value) with ties broken by sequence
length — in particular `[DIRECTIONAL_KEY]` versus `[JUMP]` ties on the
element comparison and falls through to the length tie-break. -/
theorem C7_ability_order :
    (∀ a b c : AbilityItem, AbilityItem.le a b = true →
      AbilityItem.le b c = true → AbilityItem.le a c = true) ∧
    (∀ a b : AbilityItem, (AbilityItem.le a b || AbilityItem.le b a) = true) ∧
    (∀ a b : AbilityItem, AbilityItem.lt a b = true →
      AbilityItem.lt b a = false) ∧
    (∀ a b : AbilityItem, a.control = [] → AbilityItem.lt a b = false) ∧
    (∀ a b : AbilityItem, a.control ≠ [] → b.control = [] →
      AbilityItem.lt a b = true) ∧
    (∀ a b : AbilityItem, a.control ≠ [] → b.control ≠ [] →
      AbilityItem.lt a b = ctlLt a.control b.control) ∧
    (Operation.DIRECTIONAL_KEY.sortValue = 1 ∧
      ∀ op : Operation, op ≠ Operation.DIRECTIONAL_KEY →
        op.sortValue = op.value) ∧
    (∀ x y : Operation, ∀ xs ys : List Operation,
      x.sortValue = y.sortValue →
      ctlLt (x :: xs) (y :: ys) = ctlLt xs ys) ∧
    (∀ a b : AbilityItem, a.control = [Operation.DIRECTIONAL_KEY] →
      b.control = [Operation.JUMP] →
      AbilityItem.lt a b = false ∧ AbilityItem.lt b a = false) ∧
    (∀ (a b : AbilityItem) (op : Operation),
      a.control = [Operation.DIRECTIONAL_KEY] →
      b.control = [Operation.JUMP, op] → AbilityItem.lt a b = true) := by
  refine ⟨abLe_trans, abLe_total, abLt_asymm, ?_, ?_, ?_, ⟨rfl, ?_⟩, ?_, ?_, ?_⟩
  · intro a b ha
    simp [AbilityItem.lt, ha]
  · intro a b ha hb
    simp [AbilityItem.lt, ha, hb]
  · intro a b ha hb
    simp [AbilityItem.lt, ha, hb]
  · intro op hop
    simp [Operation.sortValue, hop]
  · intro x y xs ys hxy
    simp [ctlLt, hxy]
  · intro a b ha hb
    constructor <;>
      simp [AbilityItem.lt, ha, hb, ctlLt, Operation.sortValue, Operation.value]
  · intro a b op ha hb
    simp [AbilityItem.lt, ha, hb, ctlLt, Operation.sortValue, Operation.value]

/-- Witness for C7: the DIRECTIONAL_KEY/JUMP tie at a concrete input. -/
theorem C7_witness :
    AbilityItem.lt ⟨"a", "", "", [Operation.DIRECTIONAL_KEY]⟩
        ⟨"b", "", "", [Operation.JUMP]⟩ = false ∧
    AbilityItem.lt ⟨"b", "", "", [Operation.JUMP]⟩
        ⟨"a", "", "", [Operation.DIRECTIONAL_KEY]⟩ = false :=
  C7_ability_order.2.2.2.2.2.2.2.2.1
    ⟨"a", "", "", [Operation.DIRECTIONAL_KEY]⟩
    ⟨"b", "", "", [Operation.JUMP]⟩ rfl rfl

/-! ## The Remove text operation (claim C5) -/

theorem subAllLitGo_skip (p : List Char) :
    ∀ (t : List Char) (n : Nat), subAllLitGo p n t = subAllLitGo p 0 (t.drop n) := by
  intro t
  induction t with
  | nil => intro n; simp [subAllLitGo]
  | cons c t ih =>
      intro n
      cases n with
      | zero => simp
      | succ m => simp [subAllLitGo, ih m]

/-- The drop-based recurrence of the literal-pattern scan, matching the
shape of Python's `re.sub` stepping over each match. -/
theorem subAllLit_cons (p : List Char) (c : Char) (t : List Char) :
    subAllLit p (c :: t) =
      if p ≠ [] ∧ p.isPrefixOf (c :: t) then
        subAllLit p ((c :: t).drop p.length)
      else c :: subAllLit p t := by
  have hgo : subAllLit p (c :: t) =
      if p ≠ [] ∧ p.isPrefixOf (c :: t) then subAllLitGo p (p.length - 1) t
      else c :: subAllLitGo p 0 t := rfl
  rw [hgo]
  by_cases h : p ≠ [] ∧ p.isPrefixOf (c :: t)
  · rw [if_pos h, if_pos h, subAllLitGo_skip]
    have hp1 : 1 ≤ p.length := by
      cases p with
      | nil => exact absurd rfl h.1
      | cons a as => simp
    have hdrop : (c :: t).drop p.length = t.drop (p.length - 1) := by
      cases hl : p.length with
      | zero => omega
      | succ m => simp
    rw [hdrop]
    rfl
  · rw [if_neg h, if_neg h]
    rfl

theorem subAllLit_length_le (p : List Char) :
    ∀ (n : Nat) (t : List Char), t.length ≤ n →
      (subAllLit p t).length ≤ t.length := by
  intro n
  induction n with
  | zero =>
      intro t ht
      have : t = [] := List.length_eq_zero.mp (Nat.le_zero.mp ht)
      subst this
      simp [subAllLit, subAllLitGo]
  | succ m ih =>
      intro t ht
      cases t with
      | nil => simp [subAllLit, subAllLitGo]
      | cons c t' =>
          rw [subAllLit_cons]
          by_cases h : p ≠ [] ∧ p.isPrefixOf (c :: t')
          · rw [if_pos h]
            have hp1 : 1 ≤ p.length := by
              cases p with
              | nil => exact absurd rfl h.1
              | cons a as => simp
            have hlen : t'.length + 1 ≤ m + 1 := by
              have h1 : (c :: t').length = t'.length + 1 := by simp
              omega
            have hd : ((c :: t').drop p.length).length ≤ m := by
              simp only [List.length_drop, List.length_cons]
              omega
            calc (subAllLit p ((c :: t').drop p.length)).length
                ≤ ((c :: t').drop p.length).length := ih _ hd
              _ ≤ (c :: t').length := by
                  simp only [List.length_drop]
                  omega
          · rw [if_neg h]
            have h1 : (c :: t').length = t'.length + 1 := by simp
            have h2 : (c :: subAllLit p t').length =
                (subAllLit p t').length + 1 := by simp
            have := ih t' (by omega)
            omega

theorem subAllLit_length_lt (p : List Char) (hp : p ≠ []) :
    ∀ (n : Nat) (t : List Char), t.length ≤ n → p <:+: t →
      (subAllLit p t).length < t.length := by
  intro n
  induction n with
  | zero =>
      intro t ht hocc
      have : t = [] := List.length_eq_zero.mp (Nat.le_zero.mp ht)
      subst this
      have : p = [] := List.eq_nil_of_infix_nil hocc
      exact absurd this hp
  | succ m ih =>
      intro t ht hocc
      cases t with
      | nil =>
          have : p = [] := List.eq_nil_of_infix_nil hocc
          exact absurd this hp
      | cons c t' =>
          rw [subAllLit_cons]
          have hp1 : 1 ≤ p.length := by
            cases p with
            | nil => exact absurd rfl hp
            | cons a as => simp
          by_cases h : p ≠ [] ∧ p.isPrefixOf (c :: t')
          · rw [if_pos h]
            have hlen : t'.length + 1 ≤ m + 1 := by
              have h1 : (c :: t').length = t'.length + 1 := by simp
              omega
            have hd : ((c :: t').drop p.length).length ≤ m := by
              simp only [List.length_drop, List.length_cons]
              omega
            calc (subAllLit p ((c :: t').drop p.length)).length
                ≤ ((c :: t').drop p.length).length :=
                  subAllLit_length_le p m _ hd
              _ < (c :: t').length := by
                  simp only [List.length_drop, List.length_cons]
                  omega
          · rw [if_neg h]
            have hpre : ¬ p <+: (c :: t') := by
              intro hc
              exact h ⟨hp, List.isPrefixOf_iff_prefix.mpr hc⟩
            have hocc' : p <:+: t' := by
              rcases List.infix_cons_iff.mp hocc with h1 | h1
              · exact absurd h1 hpre
              · exact h1
            simp only [List.length_cons] at ht
            have := ih t' (by omega) hocc'
            simp only [List.length_cons]
            omega

/-- The scan leaves text with no occurrence (or an empty pattern)
unchanged. -/
theorem subAllLit_of_no_occ (p : List Char) :
    ∀ t : List Char, (p = [] ∨ ¬ p <:+: t) → subAllLit p t = t := by
  intro t
  induction t with
  | nil => intro _; simp [subAllLit, subAllLitGo]
  | cons c t' ih =>
      intro h
      rw [subAllLit_cons]
      rcases h with h | h
      · rw [if_neg (by simp [h])]
        rw [ih (Or.inl h)]
      · have hpre : ¬ p <+: (c :: t') := fun hc =>
          h (List.infix_cons_iff.mpr (Or.inl hc))
        have hcond : ¬ (p ≠ [] ∧ p.isPrefixOf (c :: t')) := by
          intro hc
          exact hpre (List.isPrefixOf_iff_prefix.mp hc.2)
        rw [if_neg hcond]
        have : ¬ p <:+: t' := fun hc =>
          h (List.infix_cons_iff.mpr (Or.inr hc))
        rw [ih (Or.inr this)]

/-- C5 (amended): `Remove(pattern)` deletes every non-overlapping match of
the literal pattern in one left-to-right pass, and raises the
pattern-not-found error if and only if the text is unchanged, which
happens exactly when the pattern is empty or does not occur in the text.
(The claim as stated says only the first match is deleted; see the
counterexample.) -/
theorem C5_remove_error_iff (p t : List Char) :
    removeCall p t = Except.error "Failed to remove" ↔
      (p = [] ∨ ¬ p <:+: t) := by
  constructor
  · intro h
    by_contra hc
    push_neg at hc
    rcases hc with ⟨hp, hocc⟩
    have hlt := subAllLit_length_lt p hp t.length t (Nat.le_refl _) hocc
    have hne : t ≠ subAllLit p t := by
      intro he
      rw [← he] at hlt
      omega
    simp [removeCall, hne] at h
  · intro h
    have he : subAllLit p t = t := subAllLit_of_no_occ p t h
    simp [removeCall, he]

/-- C5 (counterexample): the claim as stated is false — with literal
pattern `"x"` and text `"axbxc"`, `Remove` deletes both occurrences
(result `"abc"`), not just the first match (which would give `"abxc"`,
the result of the spec-modelled first-match deletion). -/
theorem C5_counterexample :
    removeCall ("x".toList) ("axbxc".toList) =
        Except.ok ("abc".toList) ∧
    removeFirstOcc ("x".toList) ("axbxc".toList) = "abxc".toList ∧
    ("abc".toList : List Char) ≠ "abxc".toList := by
  refine ⟨?_, ?_, ?_⟩ <;> decide

/-! ## Move with a capture pattern (claim C8) -/

/-- C8 (amended): `Move` with a capture pattern extracts the first match
of the pattern from the ability's description, applies the post-format
text operations (default `Strip`) to the captured fragment, creates a new
`AbilityItem` carrying that fragment in the target category (its name and
icon defaulting to the original ability's under Python's falsy `or`, its
control empty), and then substitutes away every match of the pattern in
the original ability's description — not only the first one (see the
counterexample). -/
theorem C8_move_capture (toCat rx : String) (pf : PostFmt)
    (nm ic : Option String) (w w1 : Weapon)
    (abCat fromCat : String) (abIdx : Nat) (ability : AbilityItem)
    (captured formatted : List Char) (tl : List AbilityItem)
    (hab : (w.getCat abCat).bind (fun l => l.get? abIdx) = some ability)
    (hsearch : patSearch (patOf rx) ability.desc.toList = some captured)
    (hfmt : (postFmtList pf).foldlM (fun t m => textModApply m t) captured =
      Except.ok formatted)
    (htl : w.getCat toCat = some tl)
    (hset : w.setCat toCat
      (tl ++ [⟨pyOr nm ability.name, String.mk formatted,
        pyOr ic ability.icon, []⟩]) = some w1) :
    moveCall toCat (some rx) pf nm ic w abCat abIdx fromCat =
      (updateAbilityAt w1 abCat abIdx (fun ab =>
        { ab with desc :=
            String.mk (patSubAll (patOf rx) ab.desc.toList) })).map
        (fun w2 => (w2, abCat, abIdx)) := by
  simp only [moveCall, hab, hsearch, hfmt, htl, hset]

/-- C8 (witness): the specification's own example, applied through the
amended theorem — description `"Base text\r\n\r\nExtra info"` with pattern
`"\r\n\r\n.*"` and the default `Strip` yields a new ability with
description `"Extra info"` in the target category while the original
becomes `"Base text"`. -/
theorem C8_witness :
    moveCall "passives" (some ("\r\n\r\n.*")) (PostFmt.one TextMod.strip)
        none none
        { char := "W", skills := [⟨"A", "Base text\r\n\r\nExtra info", "i", []⟩] }
        "skills" 0 "skills" =
      Except.ok
        ({ char := "W",
           skills := [⟨"A", "Base text", "i", []⟩],
           passives := [⟨"A", "Extra info", "i", []⟩] }, "skills", 0) := by
  rw [C8_move_capture "passives" ("\r\n\r\n.*") (PostFmt.one TextMod.strip)
    none none
    { char := "W", skills := [⟨"A", "Base text\r\n\r\nExtra info", "i", []⟩] }
    { char := "W",
      skills := [⟨"A", "Base text\r\n\r\nExtra info", "i", []⟩],
      passives := [⟨"A", "Extra info", "i", []⟩] }
    "skills" "skills" 0 ⟨"A", "Base text\r\n\r\nExtra info", "i", []⟩
    ("\r\n\r\nExtra info".toList) ("Extra info".toList) []
    (by decide) (by decide) (by decide) (by decide) (by decide)]
  decide

/-- C8 (counterexample): the claim as stated is false — with capture
pattern `"x"` on description `"axbxc"`, the original ability's description
becomes `"abc"` (every match substituted away), not `"abxc"` (only the
first match removed, as the claim and the spec-modelled first-match
deletion would have it). -/
theorem C8_counterexample :
    moveCall "skills" (some ("x")) (PostFmt.one TextMod.strip) none none
        { char := "B", normals := [⟨"n", "axbxc", "", [Operation.ATTACK]⟩] }
        "normals" 0 "normals" =
      Except.ok
        ({ char := "B",
           normals := [⟨"n", "abc", "", [Operation.ATTACK]⟩],
           skills := [⟨"n", "x", "", []⟩] }, "normals", 0) ∧
    ("abc" : String) ≠
      String.mk (removeFirstOcc ("x".toList) ("axbxc".toList)) := by
  constructor <;> decide

/-! ## The category wildcards of apply_mod (claim C4) -/

/-- C4 (code bug): at a concrete weapon whose single skill and single
dodge have distinct descriptions, the `SKILLS` wildcard leaves the skill
untouched and rewrites the dodge's description instead — the `SKILLS` and
`DISCHARGES` arms of `apply_mod` iterate `weapon.dodges` (data_edit.py
lines 389 and 391), contradicting the claim that each wildcard applies to
every ability of its own category. -/
theorem C4_skills_wildcard_hits_dodges :
    applyMod
        [{ char := "C",
           dodges := [⟨"d", "DODGE DESC", "", []⟩],
           skills := [⟨"s", "SKILL DESC", "", []⟩] }]
        [("C", [("SKILLS",
          ModEntry.single (ModVal.modifyOp none (some ("CHANGED")) none none))])] =
      Except.ok
        [{ char := "C",
           dodges := [⟨"d", "CHANGED", "", []⟩],
           skills := [⟨"s", "SKILL DESC", "", []⟩] }] := by
  decide

/-! ## Advancement completeness (claim C2) -/

/-- C2 (code bug): with rows for tiers 1..6 and 15 of reference `Foo`
(tier 7 missing), the extractor logs the reference as skipped but — the
`break` having jumped past nothing but the tier loop — still appends the
partial six-tier `Advancements` record, contradicting the claim that such
a reference is excluded entirely. -/
theorem C2_partial_advancement_is_appended :
    getAdvancementEntries
        [("Foo_1", "d1"), ("Foo_2", "d2"), ("Foo_3", "d3"), ("Foo_4", "d4"),
         ("Foo_5", "d5"), ("Foo_6", "d6"), ("Foo_15", "d15")] =
      Except.ok
        [{ ref_name := "Foo",
           adv := [(1, "d1"), (2, "d2"), (3, "d3"), (4, "d4"), (5, "d5"),
             (6, "d6")] }] := by
  decide

/-! ## The linker fallback (claim C3) -/

theorem foldl_overwrite_eq_find_rev {α : Type} (p : α → Bool) :
    ∀ (l : List α) (acc : Option α),
      l.foldl (fun a e => if p e then some e else a) acc =
        match l.reverse.find? p with
        | some x => some x
        | none => acc := by
  intro l
  induction l with
  | nil => intro acc; simp
  | cons e l ih =>
      intro acc
      simp only [List.foldl_cons, List.reverse_cons, List.find?_append]
      rw [ih]
      cases hf : l.reverse.find? p <;>
        by_cases hpe : p e <;>
          simp [hf, hpe, List.find?, Option.or]

/-- C3 (amended): when the exact name-image key lookup fails, the fallback
scan resolves to the LAST matching entry in the name/intro dict's
iteration order (the loop overwrites `name_intro` on every match and never
breaks), i.e. the first match of the reversed value list — not the first
match, as the claim states. -/
theorem C3_fallback_is_last_match (d : List (String × NameIntroEntry))
    (cr : CharRefEntry)
    (hmiss : lookupA d cr.name_image_path = none) :
    resolveNameIntro d cr =
      (d.map Prod.snd).reverse.find?
        (fun e => e.extra_ref_name ≠ "" ∧ e.extra_ref_name ∈ cr.ref_names) := by
  simp only [resolveNameIntro, hmiss, fallbackScan]
  have hfold := foldl_overwrite_eq_find_rev
    (fun e : NameIntroEntry =>
      decide (e.extra_ref_name ≠ "" ∧ e.extra_ref_name ∈ cr.ref_names))
    (d.map Prod.snd) none
  have hstep : d.foldl
      (fun acc p => if p.2.extra_ref_name ≠ "" ∧
        p.2.extra_ref_name ∈ cr.ref_names then some p.2 else acc)
      none =
      (d.map Prod.snd).foldl
        (fun a e => if (decide (e.extra_ref_name ≠ "" ∧
          e.extra_ref_name ∈ cr.ref_names) : Bool) then some e else a)
        none := by
    rw [List.foldl_map]
    simp
  rw [hstep, hfold]
  cases hf : (d.map Prod.snd).reverse.find?
      (fun e => decide (e.extra_ref_name ≠ "" ∧
        e.extra_ref_name ∈ cr.ref_names)) <;> simp

/-- C3 (witness): the amended theorem at a concrete two-entry dict, both
entries matching — the second (last) one wins. -/
theorem C3_witness :
    resolveNameIntro
        [("k1", ⟨"w1", "", "", Element.PHYSICAL, Category.DPS, "k1", "r1"⟩),
         ("k2", ⟨"w2", "", "", Element.FLAME, Category.SUPPORT, "k2", "r2"⟩)]
        ⟨"char", "", "", ["r1", "r2"], "missing"⟩ =
      some ⟨"w2", "", "", Element.FLAME, Category.SUPPORT, "k2", "r2"⟩ := by
  rw [C3_fallback_is_last_match
    [("k1", ⟨"w1", "", "", Element.PHYSICAL, Category.DPS, "k1", "r1"⟩),
     ("k2", ⟨"w2", "", "", Element.FLAME, Category.SUPPORT, "k2", "r2"⟩)]
    ⟨"char", "", "", ["r1", "r2"], "missing"⟩ (by decide)]
  decide

/-- C3 (counterexample): the claim as stated is false — both entries'
secondary reference names are in the character's reference-name set, and
the scan resolves to the SECOND entry in iteration order, not the first. -/
theorem C3_counterexample :
    resolveNameIntro
        [("k1", ⟨"w1", "", "", Element.PHYSICAL, Category.DPS, "k1", "r1"⟩),
         ("k2", ⟨"w2", "", "", Element.FLAME, Category.SUPPORT, "k2", "r2"⟩)]
        ⟨"char", "", "", ["r1", "r2"], "missing"⟩ ≠
      some ⟨"w1", "", "", Element.PHYSICAL, Category.DPS, "k1", "r1"⟩ := by
  decide

/-! ## The AND-validation loop (claims C9, C10) -/

theorem andScan_skip_of_trigger (ctl : List Operation) :
    ∀ l : List (Nat × Operation),
      List.Pairwise (fun a b => a.1 < b.1) l →
      (∃ p ∈ l, p.2 = Operation.AND ∧ p.1 + 1 < ctl.length ∧
        pyPrev ctl p.1 = ctl.getD (p.1 + 1) Operation.ATTACK) →
      andScan ctl l = AndCheck.skip := by
  intro l
  induction l with
  | nil =>
      intro _ hex
      rcases hex with ⟨p, hp, _⟩
      cases hp
  | cons q rest ih =>
      intro hord hex
      rcases hex with ⟨p, hp, hAND, hlt, heq⟩
      by_cases hq : q.2 = Operation.AND
      · by_cases hbound : q.1 + 1 ≥ ctl.length
        · -- the head would raise IndexError, but then the trigger cannot
          -- be the head (its bound is strict) nor in the tail (indices grow)
          exfalso
          rcases List.mem_cons.mp hp with hph | hpt
          · subst hph; omega
          · have := (List.pairwise_cons.mp hord).1 p hpt
            omega
        · by_cases hmatch : pyPrev ctl q.1 = ctl.getD (q.1 + 1) Operation.ATTACK
          · simp [andScan, hq, hmatch, Nat.not_le.mp hbound]
          · have hstep : andScan ctl (q :: rest) = andScan ctl rest := by
              rcases q with ⟨j, op⟩
              simp only at hq hmatch hbound
              have hb2 : ¬ ctl.length ≤ j + 1 := by omega
              have hm2 : ¬ pyPrev ctl j =
                  ctl[j + 1]?.getD Operation.ATTACK := by
                rw [← List.getD_eq_getElem?_getD]
                exact hmatch
              simp [andScan, hq, hb2, hm2]
            rw [hstep]
            apply ih (List.pairwise_cons.mp hord).2
            rcases List.mem_cons.mp hp with hph | hpt
            · exfalso
              subst hph
              exact hmatch heq
            · exact ⟨p, hpt, hAND, hlt, heq⟩
      · have hstep : andScan ctl (q :: rest) = andScan ctl rest := by
          rcases q with ⟨j, op⟩
          simp only at hq
          simp [andScan, hq]
        rw [hstep]
        apply ih (List.pairwise_cons.mp hord).2
        rcases List.mem_cons.mp hp with hph | hpt
        · exfalso
          subst hph
          exact hq hAND
        · exact ⟨p, hpt, hAND, hlt, heq⟩

theorem enumFrom_pairwise_lt {α : Type} :
    ∀ (xs : List α) (n : Nat),
      List.Pairwise (fun a b => a.1 < b.1) (xs.enumFrom n) := by
  intro xs
  induction xs with
  | nil => intro n; simp
  | cons x xs ih =>
      intro n
      simp only [List.enumFrom]
      refine List.pairwise_cons.mpr ⟨?_, ih (n + 1)⟩
      intro p hp
      have := (List.mem_enumFrom hp).1
      simp only
      omega

/-- C9: every ability branch whose control sequence has AND immediately
between two identical tokens is rejected by the validation loop (result
`skip`, so the branch is excluded from the `Abilities` entry); in
particular `[ATTACK, AND, ATTACK]` is rejected while `[ATTACK, AND,
JUMP]` passes the check. -/
theorem C9_and_between_identical_rejected :
    (∀ (ctl : List Operation) (i : Nat), 1 ≤ i → i + 1 < ctl.length →
      ctl.getD i Operation.ATTACK = Operation.AND →
      ctl.getD (i - 1) Operation.ATTACK = ctl.getD (i + 1) Operation.ATTACK →
      checkControl ctl = AndCheck.skip) ∧
    checkControl [Operation.ATTACK, Operation.AND, Operation.ATTACK] =
      AndCheck.skip ∧
    checkControl [Operation.ATTACK, Operation.AND, Operation.JUMP] =
      AndCheck.ok := by
  refine ⟨?_, by decide, by decide⟩
  intro ctl i hi hlen hAND hneighbors
  have hibound : i < ctl.length := by omega
  have hgeti : ctl[i]? = some Operation.AND := by
    rw [List.getD_eq_getElem?_getD] at hAND
    cases hg : ctl[i]? with
    | none =>
        exfalso
        rw [List.getElem?_eq_none_iff] at hg
        omega
    | some op =>
        rw [hg] at hAND
        simp at hAND
        rw [hAND]
  have hmem : Operation.AND ∈ ctl := by
    have := List.getElem?_eq_some_iff.mp hgeti
    rcases this with ⟨hb, hv⟩
    exact hv ▸ List.getElem_mem hb
  have hne : ctl ≠ [] := by
    intro hc
    subst hc
    simp at hibound
  rw [show checkControl ctl = andScan ctl ctl.enum by
    simp [checkControl, hne, hmem]]
  apply andScan_skip_of_trigger ctl ctl.enum (enumFrom_pairwise_lt ctl 0)
  refine ⟨(i, Operation.AND), ?_, rfl, hlen, ?_⟩
  · exact List.mem_enum_iff_getElem?.mpr hgeti
  · simp only [pyPrev]
    rw [if_neg (by omega)]
    exact hneighbors

/-- C9 (witness): the main implication applied to `[ATTACK, AND,
ATTACK]` at position 1. -/
theorem C9_witness :
    checkControl [Operation.ATTACK, Operation.AND, Operation.ATTACK] =
      AndCheck.skip :=
  C9_and_between_identical_rejected.1
    [Operation.ATTACK, Operation.AND, Operation.ATTACK] 1
    (by decide) (by decide) (by decide) (by decide)

theorem andScan_indexError_of_trailing (ctl : List Operation) :
    ∀ l : List (Nat × Operation),
      (∃ p ∈ l, p.2 = Operation.AND ∧ p.1 + 1 ≥ ctl.length) →
      (∀ q ∈ l, q.2 = Operation.AND → q.1 + 1 < ctl.length →
        pyPrev ctl q.1 ≠ ctl.getD (q.1 + 1) Operation.ATTACK) →
      andScan ctl l = AndCheck.indexError := by
  intro l
  induction l with
  | nil =>
      intro hex _
      rcases hex with ⟨p, hp, _⟩
      cases hp
  | cons q rest ih =>
      intro hex hall
      by_cases hq : q.2 = Operation.AND
      · by_cases hbound : q.1 + 1 ≥ ctl.length
        · rcases q with ⟨j, op⟩
          simp only at hq hbound
          have hb2 : ctl.length ≤ j + 1 := hbound
          simp [andScan, hq, hb2]
        · have hmatch := hall q (List.mem_cons_self q rest) hq
            (Nat.not_le.mp hbound)
          have hstep : andScan ctl (q :: rest) = andScan ctl rest := by
            rcases q with ⟨j, op⟩
            simp only at hq hbound hmatch
            have hb2 : ¬ ctl.length ≤ j + 1 := by omega
            have hm2 : ¬ pyPrev ctl j =
                ctl[j + 1]?.getD Operation.ATTACK := by
              rw [← List.getD_eq_getElem?_getD]
              exact hmatch
            simp [andScan, hq, hb2, hm2]
          rw [hstep]
          refine ih ?_ (fun r hr => hall r (List.mem_cons_of_mem q hr))
          rcases hex with ⟨p, hp, hAND, hge⟩
          rcases List.mem_cons.mp hp with hph | hpt
          · exfalso
            subst hph
            omega
          · exact ⟨p, hpt, hAND, hge⟩
      · have hstep : andScan ctl (q :: rest) = andScan ctl rest := by
          rcases q with ⟨j, op⟩
          simp only at hq
          simp [andScan, hq]
        rw [hstep]
        refine ih ?_ (fun r hr => hall r (List.mem_cons_of_mem q hr))
        rcases hex with ⟨p, hp, hAND, hge⟩
        rcases List.mem_cons.mp hp with hph | hpt
        · exfalso
          subst hph
          exact hq hAND
        · exact ⟨p, hpt, hAND, hge⟩

/-- C10 (amended): the unchecked `control[op_idx + 1]` access raises
`IndexError` for a branch whose control sequence ends in AND, provided no
earlier AND triggers the identical-neighbour skip first (the claim's
unconditional version fails on such sequences; see the counterexample);
and when AND is the first token the check wraps around and compares the
LAST token (`control[-1]`) with the second one, skipping the branch when
they are equal. -/
theorem C10_trailing_and_indexerror :
    (∀ ctl : List Operation, ctl ≠ [] →
      ctl.getLast? = some Operation.AND →
      (∀ j, j + 1 < ctl.length → ctl.getD j Operation.ATTACK = Operation.AND →
        pyPrev ctl j ≠ ctl.getD (j + 1) Operation.ATTACK) →
      checkControl ctl = AndCheck.indexError) ∧
    (∀ (b : Operation) (rest : List Operation),
      (Operation.AND :: b :: rest).getLastD Operation.ATTACK = b →
      checkControl (Operation.AND :: b :: rest) = AndCheck.skip) := by
  constructor
  · intro ctl hne hlast hall
    have hlen1 : 1 ≤ ctl.length := by
      cases ctl with
      | nil => exact absurd rfl hne
      | cons a as => simp
    have hgetlast : ctl[ctl.length - 1]? = some Operation.AND := by
      rw [← List.getLast?_eq_getElem?]
      exact hlast
    have hmem : Operation.AND ∈ ctl := by
      rcases List.getElem?_eq_some_iff.mp hgetlast with ⟨hb, hv⟩
      exact hv ▸ List.getElem_mem hb
    rw [show checkControl ctl = andScan ctl ctl.enum by
      simp [checkControl, hne, hmem]]
    apply andScan_indexError_of_trailing ctl ctl.enum
    · refine ⟨(ctl.length - 1, Operation.AND), ?_, rfl, by omega⟩
      exact List.mem_enum_iff_getElem?.mpr hgetlast
    · intro q hq hAND hlt
      have hgetq := List.mem_enum_iff_getElem?.mp hq
      have : ctl.getD q.1 Operation.ATTACK = Operation.AND := by
        rw [List.getD_eq_getElem?_getD, hgetq, hAND]
        rfl
      exact hall q.1 hlt this
  · intro b rest hlastb
    have hmem : Operation.AND ∈ Operation.AND :: b :: rest :=
      List.mem_cons_self _ _
    rw [show checkControl (Operation.AND :: b :: rest) =
        andScan (Operation.AND :: b :: rest)
          ((Operation.AND :: b :: rest).enum) by
      simp [checkControl]]
    rw [show (Operation.AND :: b :: rest).enum =
      (0, Operation.AND) :: (b :: rest).enumFrom 1 from List.enum_cons]
    have hlen : ¬ (Operation.AND :: b :: rest).length ≤ 0 + 1 := by
      simp
    have hlastb2 : (b :: rest).getLast?.getD Operation.ATTACK = b := by
      rw [List.getLastD_eq_getLast?, List.getLast?_cons_cons] at hlastb
      exact hlastb
    simp [andScan, hlen, pyPrev, List.getLastD_eq_getLast?,
      List.getLast?_cons_cons, hlastb2]

/-- C10 (witness): the amended theorem at `[ATTACK, AND]` — no earlier AND
can fire, so the run aborts with `IndexError`. -/
theorem C10_witness :
    checkControl [Operation.ATTACK, Operation.AND] = AndCheck.indexError := by
  apply C10_trailing_and_indexerror.1 [Operation.ATTACK, Operation.AND]
    (by decide) (by decide)
  intro j hj hand
  have hj0 : j = 0 := by simp at hj; omega
  subst hj0
  revert hand
  decide

/-- C10 (counterexample): the claim as stated is false — in
`[ATTACK, AND, ATTACK, AND]` the control sequence ends in AND, yet
extraction does not raise `IndexError`: the earlier AND between two
identical ATTACKs triggers the skip first. -/
theorem C10_counterexample :
    checkControl
        [Operation.ATTACK, Operation.AND, Operation.ATTACK, Operation.AND] =
      AndCheck.skip ∧
    checkControl
        [Operation.ATTACK, Operation.AND, Operation.ATTACK, Operation.AND] ≠
      AndCheck.indexError := by
  constructor <;> decide

/-! ## The codec round trip (claim C1) -/

set_option maxHeartbeats 2000000 in
theorem C1_counterexample :
    modSerialize (ModVal.modifyOp none none none (some [Operation.ATTACK]))
      = Except.ok (PyVal.vdict (.cons (.vstr "MODIFY")
          (.vdict (.cons (.vstr "control")
            (.vlist (.cons (.vstr "ATTACK") .nil)) .nil)) .nil)) ∧
    modDeserialize (PyVal.vdict (.cons (.vstr "MODIFY")
          (.vdict (.cons (.vstr "control")
            (.vlist (.cons (.vstr "ATTACK") .nil)) .nil)) .nil))
      = Except.error "Matching vtype! #TODO" := by
  constructor
  · decide
  · simp [modDeserialize, PyPairs.lookup, deserializeAs, unionDeserLoop,
      Bind.bind, Except.bind, Pure.pure, Except.pure]

theorem PyPairs.append_nil : ∀ ps : PyPairs, ps.append .nil = ps
  | .nil => rfl
  | .cons k v ps => by
      simp [PyPairs.append, PyPairs.append_nil ps]

theorem PyPairs.append_assoc : ∀ a b c : PyPairs,
    (a.append b).append c = a.append (b.append c)
  | .nil, _, _ => rfl
  | .cons k v ps, b, c => by
      simp [PyPairs.append, PyPairs.append_assoc ps b c]

theorem PyPairs.keys_append : ∀ a b : PyPairs,
    (a.append b).keys = a.keys ++ b.keys
  | .nil, _ => rfl
  | .cons k v ps, b => by
      simp [PyPairs.append, PyPairs.keys, PyPairs.keys_append ps b]

theorem PyPairs.upsert_fresh : ∀ (ps : PyPairs) (k v : PyVal),
    ¬ k ∈ ps.keys → ps.upsert k v = ps.append (.cons k v .nil)
  | .nil, _, _, _ => rfl
  | .cons k0 v0 ps, k, v, h => by
      simp [PyPairs.keys] at h
      simp [PyPairs.upsert, PyPairs.append, Ne.symm h.1,
        PyPairs.upsert_fresh ps k v h.2]

theorem PyList.memb_cons (x y : PyVal) (ys : PyList) :
    PyList.memb x (.cons y ys) = (x = y || PyList.memb x ys) := by
  simp [PyList.memb]

theorem PyList.dedupGo_of_nodup :
    ∀ (xs : PyList) (seen : List PyVal), xs.nodup = true →
      (∀ s ∈ seen, PyList.memb s xs = false) → xs.dedupGo seen = xs
  | .nil, _, _, _ => rfl
  | .cons x xs, seen, hnd, hseen => by
      simp [PyList.nodup] at hnd
      have hx : ¬ x ∈ seen := by
        intro hmem
        have := hseen x hmem
        simp [PyList.memb] at this
      rw [PyList.dedupGo, if_neg hx,
        PyList.dedupGo_of_nodup xs (x :: seen) hnd.2]
      intro s hs
      cases hs with
      | head => exact hnd.1
      | tail _ hmem =>
          have := hseen s hmem
          simp [PyList.memb] at this
          exact this.2

theorem enumFromName_memberName (k : EnumKind) (i : Nat)
    (h : i < (enumMembers k).length) :
    enumFromName k (enumMemberName k i) = some i := by
  cases k <;> (simp [enumMembers] at h; interval_cases i <;> decide)

theorem dAs_enum_name (k : EnumKind) (i : Nat)
    (h : i < (enumMembers k).length) :
    deserializeAs (Ty.enum k) (.vstr (enumMemberName k i)) =
      Except.ok (.venum k i) := by
  simp only [deserializeAs, enumFromName_memberName k i h]

theorem opFromIdx_value (op : Operation) : opFromIdx op.value = op := by
  cases op <;> rfl

theorem dAs_operation_name (op : Operation) :
    deserializeAs (Ty.enum .operation) (.vstr op.opName) =
      Except.ok (.venum .operation op.value) := by
  cases op <;> simp only [deserializeAs] <;> decide

theorem decodeOpsL_roundtrip : ∀ ops : List Operation,
    decodeOpsL (PyList.ofList
        (ops.map (fun op => PyVal.venum .operation op.value))) = some ops
  | [] => rfl
  | op :: rest => by
      simp [PyList.ofList, decodeOpsL, decodeOpsL_roundtrip rest,
        opFromIdx_value]

theorem dAs_ops_list : ∀ ops : List Operation,
    deserializeAs (Ty.listT (Ty.enum .operation))
        (.vlist (PyList.ofList (ops.map (fun op => PyVal.vstr op.opName)))) =
      Except.ok (.vlist (PyList.ofList
        (ops.map (fun op => PyVal.venum .operation op.value)))) := by
  have hl : ∀ ops : List Operation,
      deserializeList (Ty.enum .operation)
          (PyList.ofList (ops.map (fun op => PyVal.vstr op.opName))) =
        Except.ok (PyList.ofList
          (ops.map (fun op => PyVal.venum .operation op.value))) := by
    intro ops
    induction ops with
    | nil => simp [PyList.ofList, deserializeList]
    | cons op rest ih =>
        simp [PyList.ofList, deserializeList, dAs_operation_name op, ih,
          Bind.bind, Except.bind, Pure.pure, Except.pure]
  intro ops
  simp [deserializeAs, hl ops, Except.map]

theorem dAs_litStrs (ss : List String) (s : String) (h : ss ≠ []) :
    deserializeAs (Ty.litStrs ss) (.vstr s) = Except.ok (.vstr s) := by
  simp [deserializeAs, h]

theorem dAs_union_str_vstr (s : String) :
    deserializeAs (Ty.union [Ty.str, Ty.noneT]) (.vstr s) =
      Except.ok (.vstr s) := by
  simp [deserializeAs, unionDeserLoop]

theorem dAs_union_mf_strip :
    deserializeAs (Ty.union [Ty.mfunc, Ty.listT Ty.mfunc]) (.vstr "STRIP") =
      Except.ok (.vmod .strip) := by
  simp [deserializeAs, unionDeserLoop, bruteLoop, modDeserialize]

theorem dAs_union_mf_remove (p : String) :
    deserializeAs (Ty.union [Ty.mfunc, Ty.listT Ty.mfunc])
        (.vdict (.cons (.vstr "REMOVE") (.vstr p) .nil)) =
      Except.ok (.vmod (.removeOp p)) := by
  simp [deserializeAs, unionDeserLoop, modDeserialize]

theorem unionDeserLoop_str (allTs : List Ty) :
    ∀ (ts : List Ty) (s : String), primMem Ty.str ts = true →
      unionDeserLoop allTs ts (.vstr s) = Except.ok (.vstr s) := by
  intro ts
  induction ts with
  | nil => intro s h; simp [primMem] at h
  | cons t' rest ih =>
      intro s h
      cases t' <;> simp only [unionDeserLoop] <;>
        exact ih s (by simpa [primMem, List.any_cons] using h)

theorem unionDeserLoop_int (allTs : List Ty) :
    ∀ (ts : List Ty) (n : Int), primMem Ty.int ts = true →
      unionDeserLoop allTs ts (.vint n) = Except.ok (.vint n) := by
  intro ts
  induction ts with
  | nil => intro n h; simp [primMem] at h
  | cons t' rest ih =>
      intro n h
      cases t' <;> simp only [unionDeserLoop] <;>
        exact ih n (by simpa [primMem, List.any_cons] using h)

theorem unionDeserLoop_none (allTs : List Ty) :
    ∀ (ts : List Ty), primMem Ty.noneT ts = true →
      unionDeserLoop allTs ts .vnone = Except.ok .vnone := by
  intro ts
  induction ts with
  | nil => intro h; simp [primMem] at h
  | cons t' rest ih =>
      intro h
      cases t' <;> simp only [unionDeserLoop] <;>
        exact ih (by simpa [primMem, List.any_cons] using h)

theorem decodeOpsL_roundtrip_cons (c : Operation) (cs : List Operation) :
    decodeOpsL (PyList.ofList (PyVal.venum .operation c.value ::
        cs.map (fun op => PyVal.venum .operation op.value))) =
      some (c :: cs) := by
  have h := decodeOpsL_roundtrip (c :: cs)
  simpa using h

theorem dAs_ops_list_cons (c : Operation) (cs : List Operation) :
    deserializeAs (Ty.listT (Ty.enum .operation))
        (.vlist (PyList.ofList (PyVal.vstr c.opName ::
          cs.map (fun op => PyVal.vstr op.opName)))) =
      Except.ok (.vlist (PyList.ofList (PyVal.venum .operation c.value ::
        cs.map (fun op => PyVal.venum .operation op.value)))) := by
  have h := dAs_ops_list (c :: cs)
  simpa using h

set_option maxHeartbeats 4000000 in
theorem modRT : ∀ (m : ModVal), m.safe = true →
    ∃ s, modSerialize m = Except.ok s ∧
      modDeserialize s = Except.ok (.vmod m) ∧
      unionDeserLoop [Ty.mfunc, Ty.listT Ty.mfunc]
        [Ty.mfunc, Ty.listT Ty.mfunc] s = Except.ok (.vmod m) := by
  intro m h
  cases m with
  | strip =>
      exact ⟨_, rfl, by simp [modDeserialize],
        by simp [unionDeserLoop, bruteLoop, modDeserialize]⟩
  | previous =>
      exact ⟨_, rfl, by simp [modDeserialize],
        by simp [unionDeserLoop, bruteLoop, modDeserialize]⟩
  | removeOp p =>
      exact ⟨_, rfl, by simp [modDeserialize],
        by simp [unionDeserLoop, modDeserialize]⟩
  | insertNewlines r => simp [ModVal.safe] at h
  | modifyOp name desc icon control =>
      simp [ModVal.safe, Option.isNone] at h
      rcases control with _ | c
      · rcases name with _ | nm <;> rcases desc with _ | ds <;>
          rcases icon with _ | ic <;>
          refine ⟨_, rfl, ?_, ?_⟩ <;>
          simp [modDeserialize, unionDeserLoop, PyPairs.ofList,
            PyPairs.lookup, dAs_union_str_vstr, Option.join,
            Bind.bind, Except.bind, Pure.pure, Except.pure]
      · simp at h
  | moveOp toCat regex pf name icon control =>
      simp [ModVal.safe] at h
      cases pf with
      | many ms => simp at h
      | one tm =>
          cases tm with
          | insertNewlines r => simp [TextMod.safe] at h
          | strip =>
              rcases regex with _ | r <;> rcases name with _ | nm <;>
                rcases icon with _ | ic <;> rcases control with _ | ⟨c, cs⟩ <;>
                refine ⟨_, rfl, ?_, ?_⟩ <;>
                simp [modDeserialize, unionDeserLoop, PyPairs.ofList,
                  PyPairs.lookup, dAs_litStrs, dAs_union_str_vstr,
                  dAs_union_mf_strip, dAs_ops_list, dAs_ops_list_cons, decodeOps,
                  decodeOpsL_roundtrip, decodeOpsL_roundtrip_cons, asTextMod, Option.getD, Option.join,
                  Bind.bind, Except.bind, Pure.pure, Except.pure]
          | removeOp p =>
              rcases regex with _ | r <;> rcases name with _ | nm <;>
                rcases icon with _ | ic <;> rcases control with _ | ⟨c, cs⟩ <;>
                refine ⟨_, rfl, ?_, ?_⟩ <;>
                simp [modDeserialize, unionDeserLoop, PyPairs.ofList,
                  PyPairs.lookup, dAs_litStrs, dAs_union_str_vstr,
                  dAs_union_mf_remove, dAs_ops_list, dAs_ops_list_cons, decodeOps,
                  decodeOpsL_roundtrip, decodeOpsL_roundtrip_cons, asTextMod, Option.getD, Option.join,
                  Bind.bind, Except.bind, Pure.pure, Except.pure]

theorem listRT_aux {N : Nat}
    (IHe : ∀ (t' : Ty) (v' : PyVal), sizeOf v' < N → Safe t' v' →
      ∃ s, serializeTo t' v' = Except.ok s ∧
        deserializeAs t' s = Except.ok v') :
    (a : Ty) → (xs : PyList) → sizeOf xs ≤ N → SafeL a xs →
      ∃ sxs, serializeList a xs = Except.ok sxs ∧
        deserializeList a sxs = Except.ok xs
  | _, .nil, _, _ =>
      ⟨.nil, by simp [serializeList], by simp [deserializeList]⟩
  | a, .cons x xs, hsz, hsafe => by
      have hx : Safe a x := by
        cases hsafe with | cons _ _ _ hx hxs => exact hx
      have hxs : SafeL a xs := by
        cases hsafe with | cons _ _ _ hx hxs => exact hxs
      have hsp : sizeOf (PyList.cons x xs) = 1 + sizeOf x + sizeOf xs := by
        simp
      obtain ⟨sx, hs1, hd1⟩ := IHe a x (by omega) hx
      obtain ⟨sxs, hs2, hd2⟩ := listRT_aux IHe a xs (by omega) hxs
      exact ⟨.cons sx sxs,
        by simp [serializeList, hs1, hs2, Bind.bind, Except.bind,
          Pure.pure, Except.pure],
        by simp [deserializeList, hd1, hd2, Bind.bind, Except.bind,
          Pure.pure, Except.pure]⟩

theorem pairsRT_aux {N : Nat} (kt vt : Ty)
    (IHe : ∀ (t' : Ty) (v' : PyVal), sizeOf v' < N → Safe t' v' →
      ∃ s, serializeTo t' v' = Except.ok s ∧
        deserializeAs t' s = Except.ok v') :
    (es : PyPairs) → sizeOf es ≤ N → SafeP kt vt es →
      es.nodupKeys = true →
      ∃ out : PyPairs,
        (∀ kk, kk ∈ out.keys → ∃ k0, k0 ∈ es.keys ∧
          serializeTo kt k0 = Except.ok kk ∧
          deserializeAs kt kk = Except.ok k0) ∧
        (∀ acc : PyPairs, (∀ kk, kk ∈ out.keys → ¬ kk ∈ acc.keys) →
          serializePairs kt vt es acc = Except.ok (acc.append out)) ∧
        (∀ acc2 : PyPairs, (∀ k0, k0 ∈ es.keys → ¬ k0 ∈ acc2.keys) →
          deserializePairs kt vt out acc2 = Except.ok (acc2.append es))
  | .nil, _, _, _ =>
      ⟨.nil, by simp [PyPairs.keys],
        fun acc _ => by simp [serializePairs, PyPairs.append_nil],
        fun acc2 _ => by simp [deserializePairs, PyPairs.append_nil]⟩
  | .cons k v rest, hsz, hsafe, hnd => by
      have hk : Safe kt k := by
        cases hsafe with | cons _ _ _ _ _ hk hv hps => exact hk
      have hv : Safe vt v := by
        cases hsafe with | cons _ _ _ _ _ hk hv hps => exact hv
      have hrest : SafeP kt vt rest := by
        cases hsafe with | cons _ _ _ _ _ hk hv hps => exact hps
      have hndh : ¬ k ∈ rest.keys := by
        simp [PyPairs.nodupKeys] at hnd
        exact hnd.1
      have hndr : rest.nodupKeys = true := by
        simp [PyPairs.nodupKeys] at hnd
        exact hnd.2
      have hsp : sizeOf (PyPairs.cons k v rest) =
          1 + sizeOf k + sizeOf v + sizeOf rest := by simp
      obtain ⟨sk, hsk, hdk⟩ := IHe kt k (by omega) hk
      obtain ⟨sv, hsv, hdv⟩ := IHe vt v (by omega) hv
      obtain ⟨outR, hkeysR, hserR, hdesR⟩ :=
        pairsRT_aux kt vt IHe rest (by omega) hrest hndr
      have hskR : ¬ sk ∈ outR.keys := by
        intro hmem
        obtain ⟨k0, hk0mem, _, hdes0⟩ := hkeysR sk hmem
        rw [hdk] at hdes0
        cases hdes0
        exact hndh hk0mem
      refine ⟨.cons sk sv outR, ?_, ?_, ?_⟩
      · intro kk hkk
        simp [PyPairs.keys] at hkk
        rcases hkk with hkk | hkk
        · subst hkk
          exact ⟨k, by simp [PyPairs.keys], hsk, hdk⟩
        · obtain ⟨k0, hk0mem, hx, hy⟩ := hkeysR kk hkk
          exact ⟨k0, by simp [PyPairs.keys, hk0mem], hx, hy⟩
      · intro acc hfresh
        have hskacc : ¬ sk ∈ acc.keys :=
          hfresh sk (by simp [PyPairs.keys])
        have hstep :
            serializePairs kt vt (.cons k v rest) acc =
              serializePairs kt vt rest (acc.upsert sk sv) := by
          simp [serializePairs, hsk, hsv, Bind.bind, Except.bind]
        rw [hstep, PyPairs.upsert_fresh acc sk sv hskacc,
          hserR (acc.append (.cons sk sv .nil)) ?_,
          PyPairs.append_assoc]
        · simp [PyPairs.append]
        · intro kk hkk
          rw [PyPairs.keys_append]
          simp [PyPairs.keys]
          constructor
          · exact fun he => hfresh kk (by simp [PyPairs.keys, hkk]) he
          · intro he
            subst he
            exact hskR hkk
      · intro acc2 hfresh2
        have hkacc : ¬ k ∈ acc2.keys :=
          hfresh2 k (by simp [PyPairs.keys])
        have hstep :
            deserializePairs kt vt (.cons sk sv outR) acc2 =
              deserializePairs kt vt outR (acc2.upsert k v) := by
          simp [deserializePairs, hdk, hdv, Bind.bind, Except.bind]
        rw [hstep, PyPairs.upsert_fresh acc2 k v hkacc,
          hdesR (acc2.append (.cons k v .nil)) ?_,
          PyPairs.append_assoc]
        · simp [PyPairs.append]
        · intro k0 hk0
          rw [PyPairs.keys_append]
          simp [PyPairs.keys]
          constructor
          · exact fun he => hfresh2 k0 (by simp [PyPairs.keys, hk0]) he
          · intro he
            subst he
            exact hndh hk0

theorem deserializeFields_skip :
    ∀ (flds : List FieldSpec) (k0 sv0 : PyVal) (es : PyPairs),
      (∀ f ∈ flds, PyVal.vstr f.fname ≠ k0) →
      deserializeFields flds (.cons k0 sv0 es) = deserializeFields flds es := by
  intro flds
  induction flds with
  | nil => intro k0 sv0 es _; simp [deserializeFields]
  | cons f fr ih =>
      intro k0 sv0 es h
      have hf : ¬ (k0 = PyVal.vstr f.fname) :=
        fun he => h f (by simp) he.symm
      have hfr : ∀ g ∈ fr, PyVal.vstr g.fname ≠ k0 :=
        fun g hg => h g (by simp [hg])
      simp only [deserializeFields, PyPairs.lookup, ih k0 sv0 es hfr]
      split <;> rename_i hl2 <;> rw [if_neg hf] at hl2 <;>
        (split <;> rename_i hl3 <;> simp_all)

theorem safeFs_length : ∀ (flds : List FieldSpec) (vs : PyList),
    SafeFs flds vs → vs.toList.length = flds.length
  | [], .nil, _ => rfl
  | [], .cons _ _, h => by cases h
  | _ :: _, .nil, h => by cases h
  | _ :: fr, .cons _ vr, h => by
      cases h with
      | cons _ _ _ _ _ hvs =>
          simp [PyList.toList, safeFs_length fr vr hvs]

theorem PyList.ofList_toList : ∀ xs : PyList, PyList.ofList xs.toList = xs
  | .nil => rfl
  | .cons x xs => by
      simp [PyList.toList, PyList.ofList, PyList.ofList_toList xs]

theorem lookupA_zip :
    ∀ (flds : List FieldSpec) (vs : List PyVal) (i : Nat) (f : FieldSpec)
      (v : PyVal),
      List.Pairwise (fun f g => f.fname ≠ g.fname) flds →
      flds[i]? = some f → vs[i]? = some v →
      lookupA ((flds.map FieldSpec.fname).zip vs) f.fname = some v := by
  intro flds
  induction flds with
  | nil => intro vs i f v _ hf _; simp at hf
  | cons f0 fr ih =>
      intro vs i f v hpw hf hv
      rw [List.pairwise_cons] at hpw
      cases vs with
      | nil => simp at hv
      | cons v0 vr =>
          cases i with
          | zero =>
              simp at hf hv
              subst hf
              subst hv
              simp [lookupA]
          | succ j =>
              simp at hf hv
              have hmem : f ∈ fr := List.getElem?_mem hf
              have hne : ¬ (f0.fname = f.fname) :=
                fun he => hpw.1 f hmem he
              simp only [List.map_cons, List.zip_cons_cons, lookupA,
                if_neg hne]
              exact ih vr j f v hpw.2 hf hv

theorem foldBuild_ok :
    ∀ (flds : List FieldSpec) (provided : List (String × PyVal))
      (vs : List PyVal) (acc : List PyVal),
      (∀ (i : Nat) (f : FieldSpec), flds[i]? = some f →
        ∃ v, vs[i]? = some v ∧ lookupA provided f.fname = some v) →
      vs.length = flds.length →
      List.foldlM (fun (acc : List PyVal) f =>
          match lookupA provided f.fname with
          | some v => Except.ok (acc ++ [v])
          | none =>
              match f.fdefault with
              | some d => Except.ok (acc ++ [d])
              | none => Except.error "TypeError: missing required argument")
        acc flds
      = Except.ok (acc ++ vs) := by
  intro flds
  induction flds with
  | nil =>
      intro provided vs acc _ hlen
      simp at hlen
      subst hlen
      simp [List.foldlM, Pure.pure, Except.pure]
  | cons f fr ih =>
      intro provided vs acc h hlen
      obtain ⟨v, hv, hlk⟩ := h 0 f (by simp)
      cases vs with
      | nil => simp at hv
      | cons v0 vr =>
          simp at hv
          subst hv
          have h' : ∀ (i : Nat) (g : FieldSpec), fr[i]? = some g →
              ∃ w, vr[i]? = some w ∧ lookupA provided g.fname = some w := by
            intro i g hg
            have := h (i + 1) g (by simpa using hg)
            simpa using this
          have hlen' : vr.length = fr.length := by simpa using hlen
          have hrec := ih provided vr (acc ++ [v0]) h' hlen'
          simp only [List.foldlM, hlk, Bind.bind, Except.bind]
          rw [hrec]
          simp

theorem recRT_aux {N : Nat}
    (IHe : ∀ (t' : Ty) (v' : PyVal), sizeOf v' < N → Safe t' v' →
      ∃ s, serializeTo t' v' = Except.ok s ∧
        deserializeAs t' s = Except.ok v') :
    (flds : List FieldSpec) → (vs : PyList) → sizeOf vs ≤ N →
      SafeFs flds vs →
      List.Pairwise (fun f g => f.fname ≠ g.fname) flds →
      ∃ out, recSerialize flds vs = Except.ok out ∧
        deserializeFields flds out =
          Except.ok ((flds.map FieldSpec.fname).zip vs.toList)
  | [], .nil, _, _, _ =>
      ⟨.nil, by simp [recSerialize],
        by simp [deserializeFields, PyList.toList]⟩
  | [], .cons _ _, _, hsf, _ => by cases hsf
  | _ :: _, .nil, _, hsf, _ => by cases hsf
  | f :: fr, .cons x vr, hsz, hsf, hpw => by
      have hx : Safe f.ftype x := by
        cases hsf with | cons _ _ _ _ hv hvs => exact hv
      have hvs : SafeFs fr vr := by
        cases hsf with | cons _ _ _ _ hv hvs => exact hvs
      rw [List.pairwise_cons] at hpw
      have hsp : sizeOf (PyList.cons x vr) = 1 + sizeOf x + sizeOf vr := by
        simp
      obtain ⟨sx, hs1, hd1⟩ := IHe f.ftype x (by omega) hx
      obtain ⟨outR, hs2, hd2⟩ := recRT_aux IHe fr vr (by omega) hvs hpw.2
      have hskip : deserializeFields fr (.cons (.vstr f.fname) sx outR) =
          deserializeFields fr outR :=
        deserializeFields_skip fr (.vstr f.fname) sx outR
          (fun g hg => by
            simp only [ne_eq, PyVal.vstr.injEq]
            exact fun he => hpw.1 g hg he.symm)
      refine ⟨.cons (.vstr f.fname) sx outR, ?_, ?_⟩
      · simp [recSerialize, hs1, hs2, Bind.bind, Except.bind, Pure.pure,
          Except.pure]
      · simp only [deserializeFields, PyPairs.lookup]
        split <;> rename_i hl2 <;> rw [if_pos rfl] at hl2
        · cases hl2
        · have hfv : sx = _ := Option.some.inj hl2
          subst hfv
          simp [hd1, hskip, hd2, PyList.toList, Bind.bind, Except.bind,
            Functor.map, Except.map, Pure.pure, Except.pure]

theorem roundTripAux : (n : Nat) → (t : Ty) → (v : PyVal) → sizeOf v ≤ n →
    Safe t v →
    ∃ s, serializeTo t v = Except.ok s ∧ deserializeAs t s = Except.ok v
  | 0, _, v, hsz, _ => by
      exfalso
      cases v <;> simp at hsz
  | n + 1, t, v, hsz, hsafe => by
      have IHe : ∀ (t' : Ty) (v' : PyVal), sizeOf v' < sizeOf v →
          Safe t' v' → ∃ s, serializeTo t' v' = Except.ok s ∧
            deserializeAs t' s = Except.ok v' := by
        intro t' v' hlt hs
        exact roundTripAux n t' v' (by omega) hs
      cases hsafe with
      | vstr s =>
          exact ⟨.vstr s, by simp [serializeTo], by simp [deserializeAs]⟩
      | vint m =>
          exact ⟨.vint m, by simp [serializeTo], by simp [deserializeAs]⟩
      | vnone =>
          exact ⟨.vnone, by simp [serializeTo], by simp [deserializeAs]⟩
      | venum k i h =>
          exact ⟨.vstr (enumMemberName k i), by simp [serializeTo],
            dAs_enum_name k i h⟩
      | vlist a xs hL =>
          have hsp : sizeOf (PyVal.vlist xs) = 1 + sizeOf xs := by simp
          obtain ⟨sxs, hs, hd⟩ := listRT_aux IHe a xs (by omega) hL
          exact ⟨.vlist sxs, by simp [serializeTo, hs, Except.map],
            by simp [deserializeAs, hd, Except.map]⟩
      | vset a xs hL hnd =>
          have hsp : sizeOf (PyVal.vset xs) = 1 + sizeOf xs := by simp
          obtain ⟨sxs, hs, hd⟩ := listRT_aux IHe a xs (by omega) hL
          have hded := PyList.dedupGo_of_nodup xs [] hnd (by simp)
          exact ⟨.vlist sxs, by simp [serializeTo, hs, Except.map],
            by simp [deserializeAs, hd, Except.map, hded]⟩
      | vtuple a xs hL =>
          have hsp : sizeOf (PyVal.vtuple xs) = 1 + sizeOf xs := by simp
          obtain ⟨sxs, hs, hd⟩ := listRT_aux IHe a xs (by omega) hL
          exact ⟨.vlist sxs, by simp [serializeTo, hs, Except.map],
            by simp [deserializeAs, hd, Except.map]⟩
      | vdict kt vt es hP hnd =>
          have hsp : sizeOf (PyVal.vdict es) = 1 + sizeOf es := by simp
          obtain ⟨out, hkeys, hser, hdes⟩ :=
            pairsRT_aux kt vt IHe es (by omega) hP hnd
          have h1 := hser .nil (by simp [PyPairs.keys])
          have h2 := hdes .nil (by simp [PyPairs.keys])
          simp only [PyPairs.append] at h1 h2
          exact ⟨.vdict out, by simp [serializeTo, h1, Except.map],
            by simp [deserializeAs, h2, Except.map]⟩
      | vlit ss s hne =>
          exact ⟨.vstr s, by simp [serializeTo, hne], dAs_litStrs ss s hne⟩
      | vrec r fs hFs hfix =>
          have hpw : List.Pairwise (fun f g => f.fname ≠ g.fname)
              (recFields r) := by
            cases r <;> decide
          have hsp : sizeOf (PyVal.vrec r fs) = 1 + sizeOf r + sizeOf fs := by
            simp
          obtain ⟨out, hs, hd⟩ :=
            recRT_aux IHe (recFields r) fs (by omega) hFs hpw
          have hlen := safeFs_length (recFields r) fs hFs
          have hbuild : buildRec r
              (((recFields r).map FieldSpec.fname).zip fs.toList) =
              Except.ok (.vrec r (recPostInit r (PyList.ofList fs.toList))) := by
            have hfold := foldBuild_ok (recFields r)
              (((recFields r).map FieldSpec.fname).zip fs.toList) fs.toList []
              (fun i f hf => by
                obtain ⟨hlt, heq⟩ := List.getElem?_eq_some.mp hf
                have hiv : i < fs.toList.length := by omega
                refine ⟨fs.toList[i], by simp [List.getElem?_eq_getElem hiv],
                  ?_⟩
                exact lookupA_zip (recFields r) fs.toList i f _ hpw hf
                  (by simp [List.getElem?_eq_getElem hiv]))
              hlen
            simp only [buildRec, hfold, List.nil_append]
          rw [PyList.ofList_toList, hfix] at hbuild
          refine ⟨.vdict out, by simp [serializeTo, hs, Except.map], ?_⟩
          simp only [deserializeAs, recDeserialize, hd]
          exact hbuild
      | vmodS m hm =>
          obtain ⟨s, hs, hd, _⟩ := modRT m hm
          exact ⟨s, by simp [serializeTo, hs],
            by simp only [deserializeAs]; exact hd⟩
      | uPrim ts vfield bt hb hmem =>
          cases v <;> simp [bareTyOf] at hb
          case vstr s =>
            subst hb
            refine ⟨.vstr s, by simp [serializeTo, hmem], ?_⟩
            simp only [deserializeAs]
            exact unionDeserLoop_str ts ts s hmem
          case vint m =>
            subst hb
            refine ⟨.vint m, by simp [serializeTo, hmem], ?_⟩
            simp only [deserializeAs]
            exact unionDeserLoop_int ts ts m hmem
          case vnone =>
            subst hb
            refine ⟨.vnone, by simp [serializeTo, hmem], ?_⟩
            simp only [deserializeAs]
            exact unionDeserLoop_none ts ts hmem
      | uMod m hm =>
          obtain ⟨s, hs, _, hu⟩ := modRT m hm
          exact ⟨s, by simp [serializeTo, hs],
            by simp only [deserializeAs]; exact hu⟩

/-- C1: for every value reachable through the declared schema — primitives,
enums, nested `Exportable` records (with their `__post_init__` invariant),
lists, sets, tuples, dicts and union-typed primitive or
`ModificationFunc` positions, as carved out by `Safe` — deserializing the
serialization of the value at its declared type returns the value itself:
`deserialize(serialize(x), type(x)) == x`. -/
theorem C1_round_trip (t : Ty) (v : PyVal) (h : Safe t v) :
    ∃ s, serializeTo t v = Except.ok s ∧ deserializeAs t s = Except.ok v :=
  roundTripAux (sizeOf v) t v (Nat.le_refl _) h

theorem C1_witness :
    ∃ s,
      serializeTo (Ty.recT .weaponR)
        (.vrec .weaponR (.cons (.vstr "Alice")
          (.cons (.vstr "banner.png")
          (.cons (.vstr "centered.png")
          (.cons (.vstr "Sword")
          (.cons (.vstr "sword.png")
          (.cons (.vstr "An intro.")
          (.cons (.venum .element 1)
          (.cons (.venum .category 0)
          (.cons (.vlist (.cons (.vrec .abilityItemR
            (.cons (.vstr "Slash")
            (.cons (.vstr "A slash.")
            (.cons (.vstr "icon.png")
            (.cons (.vlist (.cons (.venum .operation 0) .nil))
            .nil))))) .nil))
          (.cons (.vlist .nil)
          (.cons (.vlist .nil)
          (.cons (.vlist .nil)
          (.cons (.vlist .nil)
          (.cons (.vdict (.cons (.vint 1) (.vstr "Enhanced.") .nil))
          (.cons (.vset (.cons (.vstr "Alice") (.cons (.vstr "Alys") .nil)))
          .nil))))))))))))))))
        = Except.ok s ∧
      deserializeAs (Ty.recT .weaponR) s
        = Except.ok
        (.vrec .weaponR (.cons (.vstr "Alice")
          (.cons (.vstr "banner.png")
          (.cons (.vstr "centered.png")
          (.cons (.vstr "Sword")
          (.cons (.vstr "sword.png")
          (.cons (.vstr "An intro.")
          (.cons (.venum .element 1)
          (.cons (.venum .category 0)
          (.cons (.vlist (.cons (.vrec .abilityItemR
            (.cons (.vstr "Slash")
            (.cons (.vstr "A slash.")
            (.cons (.vstr "icon.png")
            (.cons (.vlist (.cons (.venum .operation 0) .nil))
            .nil))))) .nil))
          (.cons (.vlist .nil)
          (.cons (.vlist .nil)
          (.cons (.vlist .nil)
          (.cons (.vlist .nil)
          (.cons (.vdict (.cons (.vint 1) (.vstr "Enhanced.") .nil))
          (.cons (.vset (.cons (.vstr "Alice") (.cons (.vstr "Alys") .nil)))
          .nil)))))))))))))))) := by
  apply C1_round_trip
  refine Safe.vrec _ _ ?_ ?_
  · refine SafeFs.cons _ _ _ _ (Safe.vstr _) ?_
    refine SafeFs.cons _ _ _ _ (Safe.vstr _) ?_
    refine SafeFs.cons _ _ _ _ (Safe.vstr _) ?_
    refine SafeFs.cons _ _ _ _ (Safe.vstr _) ?_
    refine SafeFs.cons _ _ _ _ (Safe.vstr _) ?_
    refine SafeFs.cons _ _ _ _ (Safe.vstr _) ?_
    refine SafeFs.cons _ _ _ _ (Safe.venum _ _ (by decide)) ?_
    refine SafeFs.cons _ _ _ _ (Safe.venum _ _ (by decide)) ?_
    refine SafeFs.cons _ _ _ _ (Safe.vlist _ _ ?_) ?_
    · refine SafeL.cons _ _ _ (Safe.vrec _ _ ?_ ?_) (SafeL.nil _)
      · refine SafeFs.cons _ _ _ _ (Safe.vstr _) ?_
        refine SafeFs.cons _ _ _ _ (Safe.vstr _) ?_
        refine SafeFs.cons _ _ _ _ (Safe.vstr _) ?_
        refine SafeFs.cons _ _ _ _ (Safe.vlist _ _ ?_) SafeFs.nil
        exact SafeL.cons _ _ _ (Safe.venum _ _ (by decide)) (SafeL.nil _)
      · rfl
    refine SafeFs.cons _ _ _ _ (Safe.vlist _ _ (SafeL.nil _)) ?_
    refine SafeFs.cons _ _ _ _ (Safe.vlist _ _ (SafeL.nil _)) ?_
    refine SafeFs.cons _ _ _ _ (Safe.vlist _ _ (SafeL.nil _)) ?_
    refine SafeFs.cons _ _ _ _ (Safe.vlist _ _ (SafeL.nil _)) ?_
    refine SafeFs.cons _ _ _ _
      (Safe.vdict _ _ _
        (SafeP.cons _ _ _ _ _ (Safe.vint _) (Safe.vstr _) (SafeP.nil _ _))
        (by decide)) ?_
    refine SafeFs.cons _ _ _ _
      (Safe.vset _ _
        (SafeL.cons _ _ _ (Safe.vstr _)
          (SafeL.cons _ _ _ (Safe.vstr _) (SafeL.nil _)))
        (by decide)) SafeFs.nil
  · simp [recPostInit, PyList.nth, PyList.setNth, pySortedV, PyList.toList,
      PyList.ofList, List.mergeSort_nil]
